import Mathlib

/-!
# Life.cpp: a coloured Game of Life

A shallow embedding of `src/Life.cpp`: the cell model (`SCell`), the neighbour
analysis (`neighbours`) with its `std::map` colour tally and `std::max_element`
majority vote, and the generation step performed by the body of the `while` loop
of `main`.

Conventions of the embedding.

* `std::vector<std::vector<SCell>>` is a `List (List SCell)`; `v[row][col]` is a
  lookup that fails (`none`) when an index is out of range, and every function
  that reads or writes a cell is failure-propagating.
* `WORD` colours, `unsigned int` counters and `size_t` sizes are natural numbers.
  The counter is incremented at most eight times, so it never wraps; the one
  subtraction on a `size_t` (`size() - 1`) is modelled with its wrap-around at 0.
* The coordinates `x`, `y` handed to `neighbours` are the non-negative `int`
  values the driver passes.
* The display sink is the list of the output calls made, each with the `COORD` it
  is addressed to; the `SHORT` fields of a `COORD` and the `int` total of live
  cells in `print` wrap as the machine types do. The `long long` generation
  counter starts at 0 and grows by one per iteration; it is not wrapped.
* The random source is the sequence `rnd 0, rnd 1, ...` of the values `rand()`
  returns, in call order.
-/

namespace Life

/-! ## Cell model -/

/-- Life state of a cell (`SCell::EState`). -/
inductive EState where
  | ALIVE
  | DEAD
  deriving DecidableEq, Repr

/-- A grid cell (`struct SCell`): its state and its `WORD` colour attribute, where
the value 0 (`NULL`) stands for "no colour". -/
structure SCell where
  state : EState
  colour : Nat
  deriving DecidableEq, Repr

/-- The default constructor `SCell()`: a dead cell with colour `NULL`. -/
def SCell.dead : SCell := ⟨EState.DEAD, 0⟩

/-- The grid type `std::vector<std::vector<SCell>>`: a list of rows. -/
abbrev Grid := List (List SCell)

/-- The access `v[row][col]`; `none` when either index is out of range. -/
def cellAt (v : Grid) (row col : Nat) : Option SCell :=
  match v[row]? with
  | none => none
  | some r => r[col]?

/-- The `size_t` expression `n - 1`: it wraps to `2^64 - 1` when `n` is 0. -/
def sizeMinusOne (n : Nat) : Nat :=
  if n = 0 then 2 ^ 64 - 1 else n - 1

/-! ## The colour tally `std::map<WORD, unsigned int> pairs` -/

/-- The tally map, kept as an association list in ascending key order (the
iteration order of `std::map`). -/
abbrev Pairs := List (Nat × Nat)

/-- The statement `pairs[k] == NULL ? pairs[k] = 1 : pairs[k]++`: the entry of
`k` is created when absent, set to 1 when it is 0 and incremented otherwise. -/
def tally : Pairs → Nat → Pairs
  | [], k => [(k, 1)]
  | (k', n) :: m, k =>
    if k < k' then (k, 1) :: (k', n) :: m
    else if k = k' then (k', if n = 0 then 1 else n + 1) :: m
    else (k', n) :: tally m k

/-- The loop of `std::max_element` with comparator `p1.second < p2.second`: the
running maximum is replaced only by a strictly larger tally. -/
def maxLoop (best : Nat × Nat) : Pairs → Nat × Nat
  | [] => best
  | q :: m => maxLoop (if best.2 < q.2 then q else best) m

/-- The element `std::max_element(begin, end, comp)` points to; `none` for an
empty range (the call would return `end`, which cannot be dereferenced). -/
def maxElement : Pairs → Option (Nat × Nat)
  | [] => none
  | p :: m => some (maxLoop p m)

/-! ## Neighbour analysis -/

/-- The result type `struct SNeighbours`. -/
structure SNeighbours where
  counter : Nat
  colour : Nat
  deriving DecidableEq, Repr

/-- The two locals of `neighbours` that the eight checks update: the counter and
the colour tally. -/
structure Scan where
  counter : Nat
  pairs : Pairs
  deriving DecidableEq, Repr

/-- One check `if (v[row][col] == ALIVE) { counter++; pairs[colour]... }`. -/
def look (v : Grid) (row col : Nat) (s : Scan) : Option Scan :=
  match cellAt v row col with
  | none => none
  | some c =>
    if c.state = EState.ALIVE then some ⟨s.counter + 1, tally s.pairs c.colour⟩
    else some s

/-- The guarded check `if (x > 0 && v[row][x - 1] == ALIVE) ...`. -/
def lookLeft (v : Grid) (x row : Nat) (s : Scan) : Option Scan :=
  if x > 0 then look v row (x - 1) s else some s

/-- The guarded check `if (x < v[y].size() - 1 && v[row][x + 1] == ALIVE) ...`;
the guard itself reads the size of row `y`. -/
def lookRight (v : Grid) (x y row : Nat) (s : Scan) : Option Scan :=
  match v[y]? with
  | none => none
  | some r => if x < sizeMinusOne r.length then look v row (x + 1) s else some s

/-- The three checks made on one adjacent row (`row` is `y + 1` or `y - 1`):
straight, left diagonal, right diagonal. -/
def lookRow (v : Grid) (x y row : Nat) (s : Scan) : Option Scan :=
  ((look v row x s).bind (lookLeft v x row)).bind (lookRight v x y row)

/-- The tail of `neighbours`: the colour is computed only when the counter is
exactly 3, and stays 0 (value-initialised) otherwise. -/
def finish (s : Scan) : Option SNeighbours :=
  if s.counter = 3 then
    match maxElement s.pairs with
    | none => none
    | some p => some ⟨s.counter, p.1⟩
  else some ⟨s.counter, 0⟩

/-- The function `neighbours(v, x, y)`. -/
def neighbours (v : Grid) (x y : Nat) : Option SNeighbours :=
  let s0 : Scan := ⟨0, []⟩
  ((((if y < sizeMinusOne v.length then lookRow v x y (y + 1) s0 else some s0).bind
    (fun s1 => if y > 0 then lookRow v x y (y - 1) s1 else some s1)).bind
    (lookRight v x y y)).bind
    (lookLeft v x y)).bind finish

/-! ## Generation step -/

/-- An in-place update of `g[row][col]`; `none` when an index is out of range. -/
def modifyCell (g : Grid) (row col : Nat) (f : SCell → SCell) : Option Grid :=
  match g[row]? with
  | none => none
  | some r =>
    match r[col]? with
    | none => none
    | some c => some (g.set row (r.set col (f c)))

/-- The body of the inner `for` loop of the generation step: analyse the
neighbours of `(x, y)` in `tiles` and write the new cell into `repTiles`. -/
def stepCell (tiles : Grid) (x y : Nat) (repTiles : Grid) : Option Grid :=
  match neighbours tiles x y with
  | none => none
  | some neigh =>
    let count := neigh.counter
    match cellAt tiles y x with
    | none => none
    | some cur =>
      if cur.state = EState.ALIVE then
        if count < 2 ∨ count > 3 then
          modifyCell repTiles y x (fun c => { c with state := EState.DEAD })
        else modifyCell repTiles y x (fun _ => cur)
      else
        if count = 3 then
          modifyCell repTiles y x
            (fun c => { { c with state := EState.ALIVE } with colour := neigh.colour })
        else modifyCell repTiles y x (fun c => { c with state := EState.DEAD })

/-- The inner loop `for (int x = 0; x < ROWS; ++x)` for one row `y`. -/
def stepRow (ROWS : Nat) (tiles : Grid) (y : Nat) (repTiles : Grid) : Option Grid :=
  (List.range ROWS).foldlM (fun rep x => stepCell tiles x y rep) repTiles

/-- One generation: `repTiles` is resized to `COLS` rows of `ROWS` default cells
and filled by the two nested loops; the result is what `tiles = repTiles`
assigns. In `main` the constants are `COLS = 28` rows and `ROWS = 120` cells per
row. -/
def step (COLS ROWS : Nat) (tiles : Grid) : Option Grid :=
  (List.range COLS).foldlM (fun rep y => stepRow ROWS tiles y rep)
    (List.replicate COLS (List.replicate ROWS SCell.dead))

/-! ## Specification vocabulary -/

/-- A rectangular grid of `H` rows, each of `W` cells. -/
def Rect (v : Grid) (W H : Nat) : Prop :=
  v.length = H ∧ ∀ r ∈ v, r.length = W

instance Rect.decidable (v : Grid) (W H : Nat) : Decidable (Rect v W H) := by
  unfold Rect
  infer_instance

/-- The eight Moore offsets `(dx, dy)`: `dx, dy ∈ {-1, 0, 1}` and `(dx, dy) ≠ (0, 0)`. -/
def mooreOffsets : List (Int × Int) :=
  (List.product [-1, 0, 1] [-1, 0, 1]).filter (fun d => decide (d ≠ (0, 0)))

/-- The colour of the cell at the integer position `(px, py)` when that position
lies inside `[0, W) × [0, H)` and the cell there is ALIVE; `none` otherwise. -/
def liveColour (v : Grid) (W H : Nat) (px py : Int) : Option Nat :=
  if 0 ≤ px ∧ px < W ∧ 0 ≤ py ∧ py < H then
    match cellAt v py.toNat px.toNat with
    | some c => if c.state = EState.ALIVE then some c.colour else none
    | none => none
  else none

/-- Whether `(px, py)` lies inside `[0, W) × [0, H)` and holds an ALIVE cell. -/
def aliveIn (v : Grid) (W H : Nat) (px py : Int) : Bool :=
  decide (0 ≤ px ∧ px < W ∧ 0 ≤ py ∧ py < H) &&
    match cellAt v py.toNat px.toNat with
    | some c => decide (c.state = EState.ALIVE)
    | none => false

/-- The number of ALIVE cells among the in-grid Moore neighbours of `(x, y)`. -/
def aliveNeighbourCount (v : Grid) (W H x y : Nat) : Nat :=
  (mooreOffsets.filter (fun d => aliveIn v W H (x + d.1) (y + d.2))).length

/-- The number of ALIVE in-grid Moore neighbours of `(x, y)` whose colour is `t`. -/
def tagCount (v : Grid) (W H x y t : Nat) : Nat :=
  (mooreOffsets.filter
    (fun d => decide (liveColour v W H (x + d.1) (y + d.2) = some t))).length

/-- The offsets in the order in which `neighbours` visits them: the row `y + 1`
(straight, left, right), the row `y - 1` (straight, left, right), then right
and left on the row `y`. -/
def scanOffsets : List (Int × Int) :=
  [(0, 1), (-1, 1), (1, 1), (0, -1), (-1, -1), (1, -1), (1, 0), (-1, 0)]

/-- The colours of the ALIVE in-grid neighbours of `(x, y)`, in scan order. -/
def liveColours (v : Grid) (W H x y : Nat) : List Nat :=
  scanOffsets.filterMap (fun d => liveColour v W H (x + d.1) (y + d.2))

/-- The tally map after the colours `cs` have been counted one by one. -/
def tallyAll (cs : List Nat) : Pairs :=
  cs.foldl tally []

/-- The key `std::max_element` selects from the tally of `cs` (0 for no colours). -/
def majority (cs : List Nat) : Nat :=
  match maxElement (tallyAll cs) with
  | some p => p.1
  | none => 0

/-- Account for one neighbour position in the scan state. -/
def Scan.add (s : Scan) (o : Option Nat) : Scan :=
  match o with
  | none => s
  | some c => ⟨s.counter + 1, tally s.pairs c⟩

/-- The cell the generation step produces from the old cell and the analysis. -/
def nextCell (cur : SCell) (n : SNeighbours) : SCell :=
  if cur.state = EState.ALIVE then
    if n.counter < 2 ∨ n.counter > 3 then SCell.dead else cur
  else if n.counter = 3 then ⟨EState.ALIVE, n.colour⟩ else SCell.dead

/-- The value stored for key `k` in the tally map, 0 when the key is absent. -/
def tallyOf : Pairs → Nat → Nat
  | [], _ => 0
  | (k', n) :: m, k => if k = k' then n else tallyOf m k

/-- The keys of the association list are strictly ascending. -/
def KeysAscending (m : Pairs) : Prop :=
  m.Pairwise (fun p q => p.1 < q.1)

/-- The result of `neighbours` in terms of the scan-ordered colour list. -/
def summary (cs : List Nat) : SNeighbours :=
  ⟨cs.length, if cs.length = 3 then majority cs else 0⟩

/-- The update the generation step applies to the cell `repTiles[y][x]`, chosen
from the old cell `cur` and the neighbour analysis `neigh`. -/
def cellUpdate (cur : SCell) (neigh : SNeighbours) : SCell → SCell :=
  if cur.state = EState.ALIVE then
    if neigh.counter < 2 ∨ neigh.counter > 3 then
      fun c => { c with state := EState.DEAD }
    else fun _ => cur
  else
    if neigh.counter = 3 then
      fun c => { { c with state := EState.ALIVE } with colour := neigh.colour }
    else fun c => { c with state := EState.DEAD }

/-- The next-generation cell at `(x, y)` of a `W × H` grid: `nextCell` applied to
the old cell and to the analysis of its in-grid neighbours. -/
def nextAt (tiles : Grid) (W H x y : Nat) : SCell :=
  match cellAt tiles y x with
  | some cur => nextCell cur (summary (liveColours tiles W H x y))
  | none => SCell.dead

/-- Loop invariant of the generation step: `rep` is a `W × H` grid whose cells in
the rows before `j`, and in row `j` before column `n`, hold the next generation
of `tiles`, while all the other cells are still default-constructed. -/
def Filled (tiles rep : Grid) (W H j n : Nat) : Prop :=
  Rect rep W H ∧ ∀ r c, r < H → c < W →
    cellAt rep r c =
      some (if r < j ∨ (r = j ∧ c < n) then nextAt tiles W H c r else SCell.dead)

/-- A 3 × 3 grid whose bottom row holds three ALIVE cells of colours 4, 2 and 1
around the dead centre `(1, 1)`; used to evaluate the analysis at concrete inputs. -/
def tieGrid : Grid :=
  [[⟨EState.ALIVE, 4⟩, ⟨EState.ALIVE, 2⟩, ⟨EState.ALIVE, 1⟩],
   [SCell.dead, SCell.dead, SCell.dead],
   [SCell.dead, SCell.dead, SCell.dead]]

/-- A grid of 3 rows of 4 cells: the dead cell `(1, 1)` has exactly three ALIVE
neighbours, of colours 5, 5 and 3; the ALIVE cell `(2, 2)` has two ALIVE
neighbours and the ALIVE cell `(2, 0)` has one. -/
def pairGrid : Grid :=
  [[SCell.dead, SCell.dead, ⟨EState.ALIVE, 5⟩, SCell.dead],
   [SCell.dead, SCell.dead, SCell.dead, ⟨EState.ALIVE, 7⟩],
   [SCell.dead, ⟨EState.ALIVE, 3⟩, ⟨EState.ALIVE, 5⟩, SCell.dead]]

/-- The set of ALIVE cells of the `W × H` grid `v` is exactly `P`. -/
def AliveExactly (v : Grid) (W H : Nat) (P : Nat → Nat → Prop) : Prop :=
  ∀ px, px < W → ∀ py, py < H → (aliveIn v W H px py = true ↔ P px py)

instance AliveExactly.decidable (v : Grid) (W H : Nat) (P : Nat → Nat → Prop)
    [∀ a b, Decidable (P a b)] : Decidable (AliveExactly v W H P) := by
  unfold AliveExactly
  infer_instance

/-- The three cells of a blinker centred at `(x, y)`: the column through the
centre when `vert` is true, the row through the centre otherwise. -/
def blinkerLine (vert : Bool) (x y px py : Nat) : Prop :=
  if vert = true then px = x ∧ (py + 1 = y ∨ py = y ∨ py = y + 1)
  else py = y ∧ (px + 1 = x ∨ px = x ∨ px = x + 1)

instance blinkerLine.decidable (vert : Bool) (x y px py : Nat) :
    Decidable (blinkerLine vert x y px py) := by
  unfold blinkerLine
  infer_instance

/-- The cell at `(px, py)` of a grid that holds only a 2 × 2 block of ALIVE cells
with corner `(i, j)` and colours `c00`, `c10`, `c01`, `c11`; every other cell is
DEAD with no colour. -/
def blockAt (i j c00 c10 c01 c11 px py : Nat) : SCell :=
  if px = i ∧ py = j then ⟨EState.ALIVE, c00⟩
  else if px = i + 1 ∧ py = j then ⟨EState.ALIVE, c10⟩
  else if px = i ∧ py = j + 1 then ⟨EState.ALIVE, c01⟩
  else if px = i + 1 ∧ py = j + 1 then ⟨EState.ALIVE, c11⟩
  else SCell.dead

/-- A 2 × 2 grid filled by a block with the colours 1, 2, 3 and 4. -/
def blockGrid : Grid :=
  [[⟨EState.ALIVE, 1⟩, ⟨EState.ALIVE, 2⟩], [⟨EState.ALIVE, 3⟩, ⟨EState.ALIVE, 4⟩]]

/-- A 3 × 3 grid holding a horizontal blinker with the colours 1, 2 and 4. -/
def blinkerGrid : Grid :=
  [[SCell.dead, SCell.dead, SCell.dead],
   [⟨EState.ALIVE, 1⟩, ⟨EState.ALIVE, 2⟩, ⟨EState.ALIVE, 4⟩],
   [SCell.dead, SCell.dead, SCell.dead]]

/-- The rule B3/S23 as a function of the old state and the neighbour count. -/
def lifeRule (alive : Bool) (cnt : Nat) : Bool :=
  if alive then cnt == 2 || cnt == 3 else cnt == 3

/-- The number of Moore neighbours of the relative position `r` that belong to the
finite pattern `cells`. -/
def relCount (cells : List (Int × Int)) (r : Int × Int) : Nat :=
  (mooreOffsets.filter (fun d => decide ((r.1 + d.1, r.2 + d.2) ∈ cells))).length

/-- Whether the relative position `r` is ALIVE one generation after `cells`. -/
def relNext (cells : List (Int × Int)) (r : Int × Int) : Bool :=
  lifeRule (decide (r ∈ cells)) (relCount cells r)

/-- The positions that can be ALIVE one generation after the pattern `cells`: the
cells themselves and their Moore neighbours. -/
def candidates (cells : List (Int × Int)) : List (Int × Int) :=
  cells ++ cells.flatMap (fun c => mooreOffsets.map (fun d => (c.1 - d.1, c.2 - d.2)))

/-- The position `(px, py)` belongs to the pattern `cells` anchored at `(x, y)`. -/
def Placed (cells : List (Int × Int)) (x y px py : Nat) : Prop :=
  ((px : Int) - x, (py : Int) - y) ∈ cells

/-- The pattern `cells` anchored at `(x, y)` lies inside the `W × H` grid. -/
def Fits (cells : List (Int × Int)) (W H x y : Nat) : Prop :=
  ∀ c ∈ cells, 0 ≤ x + c.1 ∧ x + c.1 < W ∧ 0 ≤ y + c.2 ∧ y + c.2 < H

/-- The horizontal blinker, relative to its centre. -/
def blinkerH : List (Int × Int) := [(-1, 0), (0, 0), (1, 0)]

/-- The vertical blinker, relative to its centre. -/
def blinkerV : List (Int × Int) := [(0, -1), (0, 0), (0, 1)]

/-- The 2 × 2 block, relative to its corner with the least coordinates. -/
def blockCells : List (Int × Int) := [(0, 0), (1, 0), (0, 1), (1, 1)]

/-- The grid `pairGrid` with one more ALIVE cell, of colour 6, at `(3, 0)`. -/
def pairGridFar : Grid :=
  [[SCell.dead, SCell.dead, ⟨EState.ALIVE, 5⟩, ⟨EState.ALIVE, 6⟩],
   [SCell.dead, SCell.dead, SCell.dead, ⟨EState.ALIVE, 7⟩],
   [SCell.dead, ⟨EState.ALIVE, 3⟩, ⟨EState.ALIVE, 5⟩, SCell.dead]]

/-- Modelled from the spec: the console attribute bit `FOREGROUND_BLUE` of the
platform header, which is not part of the repository; the three primary channels
are the three low bits of the attribute word. -/
def FOREGROUND_BLUE : Nat := 1

/-- Modelled from the spec: the console attribute bit `FOREGROUND_GREEN` of the
platform header, which is not part of the repository. -/
def FOREGROUND_GREEN : Nat := 2

/-- Modelled from the spec: the console attribute bit `FOREGROUND_RED` of the
platform header, which is not part of the repository. -/
def FOREGROUND_RED : Nat := 4

/-- The local `white` of `print`: all three channels. -/
def white : Nat :=
  FOREGROUND_BLUE ||| FOREGROUND_GREEN ||| FOREGROUND_RED

/-- The value a 16-bit signed `SHORT` takes when it is assigned the integer `z`:
`z` modulo `2^16`, in the range from `-2^15` to `2^15 - 1`. The two fields `X`,
`Y` of the `COORD` of the platform header are of this type. -/
def toShort (z : Int) : Int :=
  (z + 2 ^ 15) % 2 ^ 16 - 2 ^ 15

/-- The value a 32-bit `int` takes when it is assigned the integer `z`: `z` modulo
`2^32`, in the range from `-2^31` to `2^31 - 1`. -/
def toInt32 (z : Int) : Int :=
  (z + 2 ^ 31) % 2 ^ 32 - 2 ^ 31

/-- One call of an output primitive of the display sink, with the fields `X`, `Y`
of the `COORD` it is given: `WriteConsoleOutputAttribute` (one attribute word) or
`WriteConsoleOutputCharacterA` (a text). -/
inductive ConsoleWrite where
  | attribute (X Y : Int) (attr : Nat)
  | characters (X Y : Int) (text : String)
  deriving DecidableEq, Repr

/-- The body of the inner loop of `print`: `location.X = x; location.Y = y;` (the
`size_t` indices are narrowed to `SHORT`), then the attribute write and the
character write for the cell `v[y][x]`. -/
def printCell (v : Grid) (y x : Nat) (out : List ConsoleWrite) : Option (List ConsoleWrite) :=
  match cellAt v y x with
  | none => none
  | some c =>
    some (out ++
      [ConsoleWrite.attribute (toShort x) (toShort y)
         (if c.colour = 0 then white else c.colour),
       ConsoleWrite.characters (toShort x) (toShort y)
         (if c.state = EState.ALIVE then "x" else ".")])

/-- The inner loop `for (size_t x = 0; x < v[y].size(); ++x)` of `print`. -/
def printRow (v : Grid) (y : Nat) (out : List ConsoleWrite) : Option (List ConsoleWrite) :=
  match v[y]? with
  | none => none
  | some r => (List.range r.length).foldlM (fun o x => printCell v y x o) out

/-- The outer loop `for (size_t y = 0; y < v.size(); ++y)` of `print`. -/
def printGrid (v : Grid) : Option (List ConsoleWrite) :=
  (List.range v.length).foldlM (fun o y => printRow v y o) []

/-- The inner `std::count_if`: the number of ALIVE cells of one row. -/
def countAlive (inner : List SCell) : Nat :=
  inner.countP (fun cell => decide (cell.state = EState.ALIVE))

/-- The `std::accumulate` over the rows: the local `alive` of `print`. The
accumulator is an `int`: each sum `total + count_if(...)` is formed in the wider
difference type and narrowed to `int` when it is stored back. -/
def aliveTotal (v : Grid) : Int :=
  v.foldl (fun total inner => toInt32 (total + countAlive inner)) 0

/-- The string `genStr` of `print`, built by the three `append` calls. -/
def statusText (v : Grid) (gen : Int) : String :=
  (("Generation: ".append (toString gen)).append " | Alive: ").append
    (toString (aliveTotal v))

/-- The function `print(v, h, gen)`: the sequence of writes it sends to the
display sink. The status line is addressed by `location.X = 0; location.Y =
v.size();`, the size being narrowed to `SHORT`. -/
def print (v : Grid) (gen : Int) : Option (List ConsoleWrite) :=
  match printGrid v with
  | none => none
  | some out =>
    some (out ++
      [ConsoleWrite.attribute 0 (toShort v.length) white,
       ConsoleWrite.characters 0 (toShort v.length) (statusText v gen)])

/-- The `COORD` an output call is addressed to. -/
def ConsoleWrite.pos : ConsoleWrite → Int × Int
  | ConsoleWrite.attribute X Y _ => (X, Y)
  | ConsoleWrite.characters X Y _ => (X, Y)

/-- Whether an output call is an attribute write. -/
def ConsoleWrite.isAttribute : ConsoleWrite → Bool
  | ConsoleWrite.attribute _ _ _ => true
  | ConsoleWrite.characters _ _ _ => false

/-- The attribute writes of an output sequence addressed to `(x, y)`. -/
def attributesAt (out : List ConsoleWrite) (x y : Int) : List ConsoleWrite :=
  out.filter (fun w => w.isAttribute && decide (w.pos = (x, y)))

/-- The character writes of an output sequence addressed to `(x, y)`. -/
def charactersAt (out : List ConsoleWrite) (x y : Int) : List ConsoleWrite :=
  out.filter (fun w => !w.isAttribute && decide (w.pos = (x, y)))

/-- A 1 × 1 grid with a single ALIVE cell that has no colour. -/
def oneGrid : Grid := [[⟨EState.ALIVE, 0⟩]]

/-- A 1 × 2 grid with a DEAD cell that still carries the colour 5. -/
def staleGrid : Grid := [[⟨EState.DEAD, 5⟩, ⟨EState.DEAD, 0⟩]]

/-- The two writes `print` makes for the cell `c` at `(x, y)`. -/
def cellWrites (c : SCell) (x y : Nat) : List ConsoleWrite :=
  [ConsoleWrite.attribute (toShort x) (toShort y) (if c.colour = 0 then white else c.colour),
   ConsoleWrite.characters (toShort x) (toShort y)
     (if c.state = EState.ALIVE then "x" else ".")]

/-- A grid of one row of 32769 DEAD cells: its last cell has the column index
32768, one more than a `SHORT` can hold. -/
def wideGrid : Grid := [List.replicate 32769 SCell.dead]

/-- A grid of 32768 empty rows: its height is one more than a `SHORT` can hold. -/
def tallGrid : Grid := List.replicate 32768 []

/-- A grid of one row of `2^31` ALIVE cells without colour: one more live cell
than an `int` can count. -/
def crowdedGrid : Grid := [List.replicate 2147483648 ⟨EState.ALIVE, 0⟩]

/-- The writes `print` makes for the row `r` with index `y`, in order. -/
def rowWrites (r : List SCell) (y : Nat) : List ConsoleWrite :=
  (List.range r.length).flatMap (fun x =>
    match r[x]? with
    | some c => cellWrites c x y
    | none => [])

/-- The writes `print` makes for the cells of the grid, in order. -/
def gridWrites (v : Grid) : List ConsoleWrite :=
  (List.range v.length).flatMap (fun y =>
    match v[y]? with
    | some r => rowWrites r y
    | none => [])

/-! ## The driver loop -/

/-- The state of the `while (true)` loop of `main`: the current grid, the counter
`generation` (a `long long` that starts at 0 and only ever grows by one per
iteration, modelled as an unbounded integer), and as a record of the rendering the
arguments of the calls of `print` made so far. -/
structure RunState where
  tiles : Grid
  generation : Int
  rendered : List (Grid × Int)
  deriving DecidableEq, Repr

/-- One iteration of the loop: the generation step into `repTiles`, the assignment
`tiles = repTiles`, then `print(tiles, handle, generation++)`, whose argument is
the value of `generation` before the increment. -/
def iteration (COLS ROWS : Nat) (s : RunState) : Option RunState :=
  match step COLS ROWS s.tiles with
  | none => none
  | some repTiles =>
    match print repTiles s.generation with
    | none => none
    | some _ =>
      some ⟨repTiles, s.generation + 1, s.rendered ++ [(repTiles, s.generation)]⟩

/-- The first `n` iterations of the loop. -/
def run (COLS ROWS : Nat) : Nat → RunState → Option RunState
  | 0, s => some s
  | n + 1, s => (run COLS ROWS n s).bind (iteration COLS ROWS)

/-- The grid after `n` generation steps. -/
def stepN (COLS ROWS : Nat) : Nat → Grid → Option Grid
  | 0, g => some g
  | n + 1, g => (stepN COLS ROWS n g).bind (step COLS ROWS)

/-! ## The random initial grid -/

/-- The `switch (rand() % 3)` of the initialisation: the channel OR-ed into the
colour of the chosen cell (nothing for a value without a `case`). -/
def orChannel (k : Nat) (colour : Nat) : Nat :=
  match k with
  | 0 => colour ||| FOREGROUND_RED
  | 1 => colour ||| FOREGROUND_GREEN
  | 2 => colour ||| FOREGROUND_BLUE
  | _ => colour

/-- The loop `for (int idx = 0; idx < rand() % 3 + 1; ++idx) switch (rand() % 3)`
on the cell `tiles[Y][X]`. The values of `rand()` are `rnd 0, rnd 1, ...` and `i`
counts the calls made so far; the bound is drawn anew at every test. The loop is
entered with `idx` at most 2, so the fuel 4 given by `seedCell` is never used up. -/
def colourLoop (rnd : Nat → Nat) (Y X : Nat) : Nat → Nat → Nat → Grid → Option (Nat × Grid)
  | 0, _, _, _ => none
  | fuel + 1, idx, i, tiles =>
    if idx < rnd i % 3 + 1 then
      match modifyCell tiles Y X
          (fun c => { c with colour := orChannel (rnd (i + 1) % 3) c.colour }) with
      | none => none
      | some t => colourLoop rnd Y X fuel (idx + 1) (i + 2) t
    else some (i + 1, tiles)

/-- The body of the seeding loop of `main`: a random cell is made ALIVE and given
one to three random channels. The state is the number of `rand()` calls made so
far and the grid. -/
def seedCell (rnd : Nat → Nat) (COLS ROWS : Nat) (st : Nat × Grid) : Option (Nat × Grid) :=
  match modifyCell st.2 (rnd st.1 % COLS) (rnd (st.1 + 1) % ROWS)
      (fun c => { c with state := EState.ALIVE }) with
  | none => none
  | some t => colourLoop rnd (rnd st.1 % COLS) (rnd (st.1 + 1) % ROWS) 4 0 (st.1 + 2) t

/-- The initialisation of `main`: `COLS` rows of `ROWS` default cells, then
`(int)((COLS * ROWS) / 2)` rounds of seeding (the product is an `unsigned int`). -/
def initialTiles (rnd : Nat → Nat) (COLS ROWS : Nat) : Option (Nat × Grid) :=
  (List.range (((COLS * ROWS) % 2 ^ 32) / 2)).foldlM
    (fun st _ => seedCell rnd COLS ROWS st)
    (0, List.replicate COLS (List.replicate ROWS SCell.dead))

/-- The colour discipline of a cell: an ALIVE cell carries a non-empty OR of the
three channels (a value from 1 to 7), a DEAD cell carries no colour. -/
def GoodCell (c : SCell) : Prop :=
  (c.state = EState.ALIVE → 1 ≤ c.colour ∧ c.colour ≤ 7) ∧
    (c.state = EState.DEAD → c.colour = 0)

/-- Every cell of the grid obeys the colour discipline. -/
def ColourInv (g : Grid) : Prop :=
  ∀ row col c, cellAt g row col = some c → GoodCell c

/-! ## Coloured patterns -/

/-- A coloured pattern: the ALIVE cells by relative position, each with its colour. -/
abbrev Pattern := List ((Int × Int) × Nat)

/-- The cell of the pattern at the relative position `r`: ALIVE with the listed
colour, or DEAD with no colour. -/
def patCell (pat : Pattern) (r : Int × Int) : SCell :=
  match pat.lookup r with
  | some c => ⟨EState.ALIVE, c⟩
  | none => SCell.dead

/-- The colours of the pattern cells around `r`, in scan order. -/
def relColours (pat : Pattern) (r : Int × Int) : List Nat :=
  scanOffsets.filterMap (fun d => pat.lookup (r.1 + d.1, r.2 + d.2))

/-- The next-generation cell at the relative position `r` of a pattern. -/
def relNextCell (pat : Pattern) (r : Int × Int) : SCell :=
  nextCell (patCell pat r) (summary (relColours pat r))

/-- The `W × H` grid `tiles` holds exactly the pattern `pat` anchored at `(x, y)`. -/
def Holds (pat : Pattern) (x y : Nat) (tiles : Grid) (W H : Nat) : Prop :=
  ∀ px, px < W → ∀ py, py < H →
    cellAt tiles py px = some (patCell pat ((px : Int) - x, (py : Int) - y))

/-- The horizontal blinker with colours `a`, `b`, `c` from left to right. -/
def patH (a b c : Nat) : Pattern := [((-1, 0), a), ((0, 0), b), ((1, 0), c)]

/-- The vertical blinker with colours `p`, `b`, `q` from row `y - 1` to row `y + 1`. -/
def patV (p b q : Nat) : Pattern := [((0, -1), p), ((0, 0), b), ((0, 1), q)]

/-- The cell at `(px, py)` of a grid that holds only a horizontal blinker centred
at `(x, y)`, with colours `a`, `b`, `c` at `(x-1, y)`, `(x, y)`, `(x+1, y)`; every
other cell is DEAD with no colour. -/
def blinkerAt (x y a b c px py : Nat) : SCell :=
  if py = y ∧ px + 1 = x then ⟨EState.ALIVE, a⟩
  else if py = y ∧ px = x then ⟨EState.ALIVE, b⟩
  else if py = y ∧ px = x + 1 then ⟨EState.ALIVE, c⟩
  else SCell.dead

/-- A 3 × 3 grid holding a horizontal blinker whose two end cells share the
colour 6. -/
def blinkerGridSame : Grid :=
  [[SCell.dead, SCell.dead, SCell.dead],
   [⟨EState.ALIVE, 6⟩, ⟨EState.ALIVE, 2⟩, ⟨EState.ALIVE, 6⟩],
   [SCell.dead, SCell.dead, SCell.dead]]

/-! ## Grid access on rectangular grids -/

theorem Rect.row {v : Grid} {W H : Nat} (hv : Rect v W H) {row : Nat} (h : row < H) :
    ∃ r, v[row]? = some r ∧ r.length = W := by
  obtain ⟨hl, hw⟩ := hv
  have hlt : row < v.length := by omega
  exact ⟨v[row], List.getElem?_eq_getElem hlt, hw _ (List.getElem_mem hlt)⟩

theorem Rect.cell {v : Grid} {W H : Nat} (hv : Rect v W H) {row col : Nat}
    (hr : row < H) (hc : col < W) : ∃ c, cellAt v row col = some c := by
  obtain ⟨r, hr1, hr2⟩ := hv.row hr
  have hlt : col < r.length := by omega
  exact ⟨r[col], by simp [cellAt, hr1, List.getElem?_eq_getElem hlt]⟩

theorem liveColour_natCast (v : Grid) {W H col row : Nat} (hr : row < H) (hc : col < W) :
    liveColour v W H (col : Int) (row : Int) =
      match cellAt v row col with
      | some c => if c.state = EState.ALIVE then some c.colour else none
      | none => none := by
  have h : (0 : Int) ≤ col ∧ (col : Int) < W ∧ (0 : Int) ≤ row ∧ (row : Int) < H := by omega
  simp only [liveColour, if_pos h, Int.toNat_ofNat]

theorem liveColour_outside (v : Grid) {W H : Nat} {px py : Int}
    (h : ¬ (0 ≤ px ∧ px < W ∧ 0 ≤ py ∧ py < H)) : liveColour v W H px py = none := by
  simp only [liveColour, if_neg h]

theorem look_eq {v : Grid} {W H : Nat} (hv : Rect v W H) {row col : Nat}
    (hr : row < H) (hc : col < W) (s : Scan) :
    look v row col s = some (s.add (liveColour v W H col row)) := by
  obtain ⟨c, hcell⟩ := hv.cell hr hc
  rw [liveColour_natCast v hr hc]
  simp only [look, hcell]
  by_cases hs : c.state = EState.ALIVE <;> simp [hs, Scan.add]

theorem lookLeft_eq {v : Grid} {W H : Nat} (hv : Rect v W H) {x row : Nat}
    (hr : row < H) (hx : x < W) (s : Scan) :
    lookLeft v x row s = some (s.add (liveColour v W H ((x : Int) + -1) row)) := by
  unfold lookLeft
  by_cases h0 : x > 0
  · have hcast : (x : Int) + -1 = ((x - 1 : Nat) : Int) := by omega
    rw [if_pos h0, hcast]
    exact look_eq hv hr (by omega) s
  · rw [if_neg h0, liveColour_outside v (by omega)]
    rfl

theorem lookRight_eq {v : Grid} {W H : Nat} (hv : Rect v W H) {x y row : Nat}
    (hr : row < H) (hy : y < H) (hx : x < W) (s : Scan) :
    lookRight v x y row s = some (s.add (liveColour v W H ((x : Int) + 1) row)) := by
  obtain ⟨r, hr1, hr2⟩ := hv.row hy
  have hsz : sizeMinusOne r.length = W - 1 := by
    unfold sizeMinusOne
    rw [if_neg (by omega), hr2]
  simp only [lookRight, hr1, hsz]
  by_cases h1 : x < W - 1
  · have hcast : (x : Int) + 1 = ((x + 1 : Nat) : Int) := by omega
    rw [if_pos h1, hcast]
    exact look_eq hv hr (by omega) s
  · rw [if_neg h1, liveColour_outside v (by omega)]
    rfl

theorem lookRow_eq {v : Grid} {W H : Nat} (hv : Rect v W H) {x y row : Nat}
    (hr : row < H) (hy : y < H) (hx : x < W) (s : Scan) :
    lookRow v x y row s =
      some (((s.add (liveColour v W H ((x : Int) + 0) row)).add
        (liveColour v W H ((x : Int) + -1) row)).add
        (liveColour v W H ((x : Int) + 1) row)) := by
  unfold lookRow
  rw [add_zero, look_eq hv hr hx s, Option.some_bind, lookLeft_eq hv hr hx, Option.some_bind,
    lookRight_eq hv hr hy hx]

/-- The scan state after the eight checks of `neighbours`. -/
theorem scan_eq {v : Grid} {W H : Nat} (hv : Rect v W H) {x y : Nat}
    (hx : x < W) (hy : y < H) :
    ((((if y < sizeMinusOne v.length then lookRow v x y (y + 1) ⟨0, []⟩
          else some ⟨0, []⟩).bind
        (fun s1 => if y > 0 then lookRow v x y (y - 1) s1 else some s1)).bind
        (lookRight v x y y)).bind (lookLeft v x y)) =
      some (scanOffsets.foldl
        (fun s d => s.add (liveColour v W H ((x : Int) + d.1) ((y : Int) + d.2))) ⟨0, []⟩) := by
  have hsz : sizeMinusOne v.length = H - 1 := by
    unfold sizeMinusOne
    rw [if_neg (by have := hv.1; omega), hv.1]
  have hup : (if y < sizeMinusOne v.length then lookRow v x y (y + 1) ⟨0, []⟩
      else some ⟨0, []⟩) =
      some ((((⟨0, []⟩ : Scan).add (liveColour v W H ((x : Int) + 0) ((y : Int) + 1))).add
        (liveColour v W H ((x : Int) + -1) ((y : Int) + 1))).add
        (liveColour v W H ((x : Int) + 1) ((y : Int) + 1))) := by
    rw [hsz]
    by_cases h : y < H - 1
    · rw [if_pos h, lookRow_eq hv (by omega) hy hx]
      rfl
    · rw [if_neg h, liveColour_outside v (by omega), liveColour_outside v (by omega),
        liveColour_outside v (by omega)]
      rfl
  have hdown : ∀ s1 : Scan, (if y > 0 then lookRow v x y (y - 1) s1 else some s1) =
      some (((s1.add (liveColour v W H ((x : Int) + 0) ((y : Int) + -1))).add
        (liveColour v W H ((x : Int) + -1) ((y : Int) + -1))).add
        (liveColour v W H ((x : Int) + 1) ((y : Int) + -1))) := by
    intro s1
    by_cases h : y > 0
    · have hcast : (y : Int) + -1 = ((y - 1 : Nat) : Int) := by omega
      rw [if_pos h, lookRow_eq hv (by omega) hy hx, hcast]
    · rw [if_neg h, liveColour_outside v (by omega), liveColour_outside v (by omega),
        liveColour_outside v (by omega)]
      rfl
  rw [hup, Option.some_bind, hdown, Option.some_bind, lookRight_eq hv hy hy hx,
    Option.some_bind, lookLeft_eq hv hy hx]
  simp only [scanOffsets, List.foldl_cons, List.foldl_nil, add_zero]

theorem foldl_add_eq {α : Type} (f : α → Option Nat) (l : List α) (s : Scan) :
    l.foldl (fun s d => s.add (f d)) s =
      ⟨s.counter + (l.filterMap f).length, (l.filterMap f).foldl tally s.pairs⟩ := by
  induction l generalizing s with
  | nil => simp
  | cons d l ih =>
    rw [List.foldl_cons, ih]
    cases hd : f d with
    | none => simp [Scan.add, List.filterMap_cons, hd]
    | some c => simp [Scan.add, List.filterMap_cons, hd]; omega

/-! ## The tally map -/

theorem tallyOf_eq_zero {m : Pairs} {k : Nat} (h : ∀ p ∈ m, k < p.1) : tallyOf m k = 0 := by
  induction m with
  | nil => rfl
  | cons p m ih =>
    obtain ⟨k', n⟩ := p
    have h1 : k < k' := h (k', n) (List.mem_cons_self _ _)
    simp only [tallyOf, if_neg (Nat.ne_of_lt h1)]
    exact ih (fun q hq => h q (List.mem_cons_of_mem _ hq))

theorem tally_keys {m : Pairs} {k : Nat} {q : Nat × Nat} (hq : q ∈ tally m k) :
    q.1 = k ∨ q ∈ m := by
  induction m with
  | nil =>
    simp only [tally, List.mem_singleton] at hq
    left; rw [hq]
  | cons p m ih =>
    obtain ⟨k', n⟩ := p
    simp only [tally] at hq
    split_ifs at hq with h1 h2 h3
    · rcases List.mem_cons.1 hq with h | h
      · left; rw [h]
      · right; exact h
    · rcases List.mem_cons.1 hq with h | h
      · left; rw [h]; exact h2.symm
      · right; exact List.mem_cons_of_mem _ h
    · rcases List.mem_cons.1 hq with h | h
      · left; rw [h]; exact h2.symm
      · right; exact List.mem_cons_of_mem _ h
    · rcases List.mem_cons.1 hq with h | h
      · right; rw [h]; exact List.mem_cons_self _ _
      · rcases ih h with h | h
        · left; exact h
        · right; exact List.mem_cons_of_mem _ h

theorem tally_ascending {m : Pairs} (hm : KeysAscending m) (k : Nat) :
    KeysAscending (tally m k) := by
  induction m with
  | nil => simp [tally, KeysAscending]
  | cons p m ih =>
    obtain ⟨k', n⟩ := p
    unfold KeysAscending at hm ih ⊢
    rw [List.pairwise_cons] at hm
    obtain ⟨hhead, htail⟩ := hm
    simp only [tally]
    split_ifs with h1 h2 h3
    · refine List.pairwise_cons.2 ⟨?_, List.pairwise_cons.2 ⟨hhead, htail⟩⟩
      intro q hq
      rcases List.mem_cons.1 hq with h | h
      · rw [h]; exact h1
      · exact Nat.lt_trans h1 (hhead q h)
    · exact List.pairwise_cons.2 ⟨hhead, htail⟩
    · exact List.pairwise_cons.2 ⟨hhead, htail⟩
    · refine List.pairwise_cons.2 ⟨?_, ih htail⟩
      intro q hq
      rcases tally_keys hq with h | h
      · simp only [h]; omega
      · exact hhead q h

theorem tallyOf_tally {m : Pairs} (hm : KeysAscending m) (k t : Nat) :
    tallyOf (tally m k) t = tallyOf m t + (if t = k then 1 else 0) := by
  induction m with
  | nil =>
    simp only [tally, tallyOf]
    split_ifs <;> rfl
  | cons p m ih =>
    obtain ⟨k', n⟩ := p
    unfold KeysAscending at hm ih
    rw [List.pairwise_cons] at hm
    obtain ⟨hhead, htail⟩ := hm
    rcases Nat.lt_trichotomy k k' with hlt | heq | hgt
    · have hz : tallyOf m k = 0 :=
        tallyOf_eq_zero (fun q hq => Nat.lt_trans hlt (hhead q hq))
      simp only [tally, if_pos hlt, tallyOf]
      by_cases htk : t = k
      · subst htk
        simp [Nat.ne_of_lt hlt, hz]
      · simp [htk]
    · subst heq
      simp only [tally, Nat.lt_irrefl, if_false, if_true, tallyOf]
      by_cases htk : t = k
      · simp only [if_pos htk]
        split_ifs with h0
        · omega
        · rfl
      · simp [htk]
    · have h1 : ¬ k < k' := by omega
      have h2 : ¬ k = k' := by omega
      simp only [tally, if_neg h1, if_neg h2, tallyOf, ih htail]
      by_cases htk : t = k
      · have h3 : ¬ t = k' := by omega
        simp [htk, h2]
      · by_cases h3 : t = k'
        · have h4 : ¬ k' = k := by omega
          simp [h3, h4]
        · simp [htk, h3]

theorem tally_pos {m : Pairs} (hm : ∀ p ∈ m, 0 < p.2) (k : Nat) :
    ∀ p ∈ tally m k, 0 < p.2 := by
  induction m with
  | nil =>
    intro p hp
    simp only [tally, List.mem_singleton] at hp
    rw [hp]; exact Nat.one_pos
  | cons q m ih =>
    obtain ⟨k', n⟩ := q
    intro p hp
    simp only [tally] at hp
    split_ifs at hp with h1 h2 h3
    · rcases List.mem_cons.1 hp with h | h
      · rw [h]; exact Nat.one_pos
      · exact hm p h
    · rcases List.mem_cons.1 hp with h | h
      · rw [h]; exact Nat.one_pos
      · exact hm p (List.mem_cons_of_mem _ h)
    · rcases List.mem_cons.1 hp with h | h
      · rw [h]; exact Nat.succ_pos n
      · exact hm p (List.mem_cons_of_mem _ h)
    · rcases List.mem_cons.1 hp with h | h
      · rw [h]; exact hm _ (List.mem_cons_self _ _)
      · exact ih (fun r hr => hm r (List.mem_cons_of_mem _ hr)) p h

theorem tallyOf_of_mem {m : Pairs} (hm : KeysAscending m) {p : Nat × Nat} (hp : p ∈ m) :
    tallyOf m p.1 = p.2 := by
  induction m with
  | nil => exact absurd hp (List.not_mem_nil _)
  | cons q m ih =>
    obtain ⟨k', n⟩ := q
    unfold KeysAscending at hm ih
    rw [List.pairwise_cons] at hm
    obtain ⟨hhead, htail⟩ := hm
    rcases List.mem_cons.1 hp with h | h
    · rw [h]; simp [tallyOf]
    · have hlt : k' < p.1 := hhead p h
      have hne : ¬ p.1 = k' := by omega
      simp only [tallyOf, if_neg hne]
      exact ih htail h

theorem mem_of_tallyOf_pos {m : Pairs} {k : Nat} (h : 0 < tallyOf m k) :
    (k, tallyOf m k) ∈ m := by
  induction m with
  | nil => simp [tallyOf] at h
  | cons q m ih =>
    obtain ⟨k', n⟩ := q
    by_cases hk : k = k'
    · subst hk
      simp [tallyOf]
    · simp only [tallyOf, if_neg hk] at h ⊢
      exact List.mem_cons_of_mem _ (ih h)

theorem foldl_tally_inv (cs : List Nat) {m : Pairs} (hasc : KeysAscending m)
    (hpos : ∀ p ∈ m, 0 < p.2) :
    KeysAscending (cs.foldl tally m) ∧ (∀ p ∈ cs.foldl tally m, 0 < p.2) ∧
      ∀ t, tallyOf (cs.foldl tally m) t = tallyOf m t + cs.count t := by
  induction cs generalizing m with
  | nil => exact ⟨hasc, hpos, fun t => by simp⟩
  | cons c cs ih =>
    obtain ⟨h1, h2, h3⟩ := ih (tally_ascending hasc c) (tally_pos hpos c)
    refine ⟨h1, h2, fun t => ?_⟩
    rw [List.foldl_cons, h3 t, tallyOf_tally hasc, List.count_cons]
    by_cases htc : t = c
    · subst htc
      simp; omega
    · have hct : ¬ c = t := fun h => htc h.symm
      simp [htc, hct]

/-- The tally of a colour list: keys ascending, one entry per colour that occurs,
holding its number of occurrences. -/
theorem tallyAll_spec (cs : List Nat) :
    KeysAscending (tallyAll cs) ∧
      (∀ p ∈ tallyAll cs, p.1 ∈ cs ∧ p.2 = cs.count p.1) ∧
      ∀ t ∈ cs, (t, cs.count t) ∈ tallyAll cs := by
  have hnil : KeysAscending ([] : Pairs) := List.Pairwise.nil
  obtain ⟨h1, h2, h3⟩ :=
    foldl_tally_inv cs hnil (fun p hp => absurd hp (List.not_mem_nil _))
  have hcount : ∀ t, tallyOf (tallyAll cs) t = cs.count t := by
    intro t
    have := h3 t
    simpa [tallyOf] using this
  refine ⟨h1, fun p hp => ?_, fun t ht => ?_⟩
  · have hval : cs.count p.1 = p.2 := by
      rw [← hcount p.1]; exact tallyOf_of_mem h1 hp
    have hpos : 0 < p.2 := h2 p hp
    exact ⟨List.count_pos_iff.1 (by omega), hval.symm⟩
  · have hpos : 0 < tallyOf (tallyAll cs) t := by
      rw [hcount t]; exact List.count_pos_iff.2 ht
    have := mem_of_tallyOf_pos hpos
    rwa [hcount t] at this

/-! ## The majority vote `std::max_element` -/

theorem maxLoop_spec (m : Pairs) (best : Nat × Nat) (hlt : ∀ q ∈ m, best.1 < q.1)
    (hasc : KeysAscending m) :
    (maxLoop best m = best ∨ (maxLoop best m ∈ m ∧ best.2 < (maxLoop best m).2)) ∧
      best.2 ≤ (maxLoop best m).2 ∧
      ∀ q ∈ m, q.2 ≤ (maxLoop best m).2 ∧
        (q.2 = (maxLoop best m).2 → (maxLoop best m).1 ≤ q.1) := by
  induction m generalizing best with
  | nil => exact ⟨Or.inl rfl, Nat.le_refl _, fun q hq => absurd hq (List.not_mem_nil _)⟩
  | cons q m ih =>
    unfold KeysAscending at hasc ih
    rw [List.pairwise_cons] at hasc
    obtain ⟨hhead, htail⟩ := hasc
    have hq : best.1 < q.1 := hlt q (List.mem_cons_self _ _)
    by_cases hb : best.2 < q.2
    · have hstep : maxLoop best (q :: m) = maxLoop q m := by simp [maxLoop, hb]
      rw [hstep]
      obtain ⟨h1, h2, h3⟩ := ih q hhead htail
      refine ⟨Or.inr ?_, by omega, ?_⟩
      · rcases h1 with h | ⟨h, h'⟩
        · rw [h]; exact ⟨List.mem_cons_self _ _, hb⟩
        · exact ⟨List.mem_cons_of_mem _ h, by omega⟩
      · intro p hp
        rcases List.mem_cons.1 hp with h | h
        · subst h
          refine ⟨h2, fun he => ?_⟩
          rcases h1 with h | ⟨_, h'⟩
          · rw [h]
          · omega
        · exact h3 p h
    · have hstep : maxLoop best (q :: m) = maxLoop best m := by simp [maxLoop, hb]
      rw [hstep]
      obtain ⟨h1, h2, h3⟩ :=
        ih best (fun p hp => hlt p (List.mem_cons_of_mem _ hp)) htail
      refine ⟨?_, h2, ?_⟩
      · rcases h1 with h | ⟨h, h'⟩
        · exact Or.inl h
        · exact Or.inr ⟨List.mem_cons_of_mem _ h, h'⟩
      · intro p hp
        rcases List.mem_cons.1 hp with h | h
        · subst h
          refine ⟨by omega, fun he => ?_⟩
          rcases h1 with h | ⟨_, h'⟩
          · rw [h]; omega
          · omega
        · exact h3 p h

/-- On a non-empty key-ascending map `std::max_element` returns an entry with the
greatest tally and, among the entries with that tally, the one with the least key. -/
theorem maxElement_spec {m : Pairs} (hne : m ≠ []) (hasc : KeysAscending m) :
    ∃ r, maxElement m = some r ∧ r ∈ m ∧
      ∀ q ∈ m, q.2 ≤ r.2 ∧ (q.2 = r.2 → r.1 ≤ q.1) := by
  cases m with
  | nil => exact absurd rfl hne
  | cons p m =>
    have hasc2 := hasc
    unfold KeysAscending at hasc2
    rw [List.pairwise_cons] at hasc2
    obtain ⟨hhead, htail⟩ := hasc2
    obtain ⟨h1, h2, h3⟩ := maxLoop_spec m p hhead htail
    refine ⟨maxLoop p m, rfl, ?_, ?_⟩
    · rcases h1 with h | ⟨h, _⟩
      · rw [h]; exact List.mem_cons_self _ _
      · exact List.mem_cons_of_mem _ h
    · intro q hq
      rcases List.mem_cons.1 hq with h | h
      · subst h
        refine ⟨h2, fun he => ?_⟩
        rcases h1 with h | ⟨_, h'⟩
        · rw [h]
        · omega
      · exact h3 q h

/-- The colour selected from a non-empty list of neighbour colours: it occurs in
the list, no colour occurs more often, and it is the least of the colours that
occur as often. -/
theorem majority_spec {cs : List Nat} (hne : cs ≠ []) :
    maxElement (tallyAll cs) = some (majority cs, cs.count (majority cs)) ∧
      majority cs ∈ cs ∧ (∀ t, cs.count t ≤ cs.count (majority cs)) ∧
      ∀ t, cs.count t = cs.count (majority cs) → majority cs ≤ t := by
  obtain ⟨hasc, hmem, hall⟩ := tallyAll_spec cs
  have hne2 : tallyAll cs ≠ [] := by
    obtain ⟨c, hc⟩ := List.exists_mem_of_ne_nil cs hne
    exact List.ne_nil_of_mem (hall c hc)
  obtain ⟨r, hr, hrm, hmax⟩ := maxElement_spec hne2 hasc
  have hmaj : majority cs = r.1 := by simp [majority, hr]
  obtain ⟨hr1, hr2⟩ := hmem r hrm
  rw [hmaj]
  refine ⟨by rw [hr, ← hr2], hr1, fun t => ?_, fun t ht => ?_⟩
  · by_cases htc : t ∈ cs
    · have := (hmax _ (hall t htc)).1
      simp only at this
      omega
    · rw [List.count_eq_zero_of_not_mem htc]; exact Nat.zero_le _
  · have hpos : 0 < cs.count r.1 := List.count_pos_iff.2 hr1
    have htc : t ∈ cs := List.count_pos_iff.1 (by omega)
    have := (hmax _ (hall t htc)).2
    simp only at this
    exact this (by omega)

/-! ## What `neighbours` returns -/


theorem neighbours_eq {v : Grid} {W H : Nat} (hv : Rect v W H) {x y : Nat}
    (hx : x < W) (hy : y < H) :
    neighbours v x y = some (summary (liveColours v W H x y)) := by
  unfold neighbours
  simp only []
  rw [scan_eq hv hx hy, Option.some_bind, foldl_add_eq]
  unfold finish summary liveColours
  simp only [Nat.zero_add]
  split_ifs with h3
  · have hne : scanOffsets.filterMap
        (fun d => liveColour v W H ((x : Int) + d.1) ((y : Int) + d.2)) ≠ [] := by
      intro h
      rw [h] at h3
      simp at h3
    have hmax := (majority_spec hne).1
    unfold tallyAll at hmax
    rw [hmax]
  · rfl

theorem mooreOffsets_perm : mooreOffsets.Perm scanOffsets := by
  decide

theorem length_filterMap_eq {α : Type} (f : α → Option Nat) (l : List α) :
    (l.filterMap f).length = (l.filter (fun d => (f d).isSome)).length := by
  induction l with
  | nil => rfl
  | cons d l ih =>
    cases hd : f d with
    | none => simp [List.filterMap_cons, List.filter_cons, hd, ih]
    | some c => simp [List.filterMap_cons, List.filter_cons, hd, ih]

theorem count_filterMap_eq {α : Type} (f : α → Option Nat) (t : Nat) (l : List α) :
    (l.filterMap f).count t = (l.filter (fun d => decide (f d = some t))).length := by
  induction l with
  | nil => rfl
  | cons d l ih =>
    cases hd : f d with
    | none => simp [List.filterMap_cons, List.filter_cons, hd, ih]
    | some c =>
      by_cases hct : c = t
      · simp [List.filterMap_cons, List.filter_cons, hd, ih, hct]
      · simp [List.filterMap_cons, List.filter_cons, hd, ih, hct, List.count_cons]

theorem aliveIn_eq (v : Grid) (W H : Nat) (px py : Int) :
    aliveIn v W H px py = (liveColour v W H px py).isSome := by
  unfold aliveIn liveColour
  by_cases h : 0 ≤ px ∧ px < W ∧ 0 ≤ py ∧ py < H
  · rw [if_pos h]
    cases hc : cellAt v py.toNat px.toNat with
    | none => simp
    | some c => by_cases hs : c.state = EState.ALIVE <;> simp [h, hs]
  · rw [if_neg h]
    simp [h]

theorem aliveNeighbourCount_eq (v : Grid) (W H x y : Nat) :
    aliveNeighbourCount v W H x y = (liveColours v W H x y).length := by
  unfold aliveNeighbourCount liveColours
  simp only [aliveIn_eq]
  rw [length_filterMap_eq]
  exact (mooreOffsets_perm.filter _).length_eq

theorem tagCount_eq (v : Grid) (W H x y t : Nat) :
    tagCount v W H x y t = (liveColours v W H x y).count t := by
  unfold tagCount liveColours
  rw [count_filterMap_eq]
  exact (mooreOffsets_perm.filter _).length_eq

/-! ## The generation step -/

theorem modifyCell_spec {g : Grid} {W H : Nat} (hg : Rect g W H) {row col : Nat}
    (hr : row < H) (hc : col < W) (f : SCell → SCell) :
    ∃ c g2, cellAt g row col = some c ∧ modifyCell g row col f = some g2 ∧ Rect g2 W H ∧
      ∀ r2 c2, cellAt g2 r2 c2 =
        if r2 = row ∧ c2 = col then some (f c) else cellAt g r2 c2 := by
  obtain ⟨r, hr1, hr2⟩ := hg.row hr
  have hlt : col < r.length := by omega
  have hcol : r[col]? = some r[col] := List.getElem?_eq_getElem hlt
  refine ⟨r[col], g.set row (r.set col (f r[col])), ?_, ?_, ?_, ?_⟩
  · simp [cellAt, hr1, hcol]
  · simp [modifyCell, hr1, hcol]
  · refine ⟨by rw [List.length_set]; exact hg.1, fun r2 h2 => ?_⟩
    rcases List.mem_or_eq_of_mem_set h2 with h | h
    · exact hg.2 r2 h
    · rw [h, List.length_set]; exact hr2
  · intro r2 c2
    have hrow : row < g.length := by rw [hg.1]; exact hr
    by_cases h1 : r2 = row
    · subst h1
      simp only [cellAt, List.getElem?_set_self hrow, hr1, true_and]
      by_cases h2 : c2 = col
      · subst h2
        simp [List.getElem?_set_self hlt]
      · have h3 : col ≠ c2 := fun h => h2 h.symm
        simp [List.getElem?_set_ne h3, h2]
    · have h3 : row ≠ r2 := fun h => h1 h.symm
      simp [cellAt, List.getElem?_set_ne h3, h1]

theorem stepCell_eq {tiles : Grid} {W H : Nat} (ht : Rect tiles W H) {x y : Nat}
    (hx : x < W) (hy : y < H) (rep : Grid) :
    ∃ cur, cellAt tiles y x = some cur ∧
      stepCell tiles x y rep =
        modifyCell rep y x (cellUpdate cur (summary (liveColours tiles W H x y))) := by
  obtain ⟨cur, hcur⟩ := ht.cell hy hx
  refine ⟨cur, hcur, ?_⟩
  simp only [stepCell, neighbours_eq ht hx hy, hcur, cellUpdate]
  split_ifs <;> rfl

theorem cellUpdate_dead (cur : SCell) (n : SNeighbours) :
    cellUpdate cur n SCell.dead = nextCell cur n := by
  unfold cellUpdate nextCell SCell.dead
  split_ifs <;> rfl

theorem stepCell_filled {tiles rep : Grid} {W H j n : Nat} (ht : Rect tiles W H)
    (hj : j < H) (hn : n < W) (hf : Filled tiles rep W H j n) :
    ∃ rep2, stepCell tiles n j rep = some rep2 ∧ Filled tiles rep2 W H j (n + 1) := by
  obtain ⟨cur, hcur, hstep⟩ := stepCell_eq ht hn hj rep
  obtain ⟨old, rep2, hold, hmod, hrect, hcells⟩ :=
    modifyCell_spec hf.1 hj hn (cellUpdate cur (summary (liveColours tiles W H n j)))
  have hdead : old = SCell.dead := by
    have := hf.2 j n hj hn
    rw [hold] at this
    have hno : ¬ (j < j ∨ (j = j ∧ n < n)) := by omega
    rw [if_neg hno] at this
    exact Option.some.inj this
  refine ⟨rep2, by rw [hstep, hmod], hrect, fun r c hr hc => ?_⟩
  rw [hcells r c]
  by_cases hrc : r = j ∧ c = n
  · obtain ⟨h1, h2⟩ := hrc
    subst h1 h2
    have hyes : r < r ∨ (r = r ∧ c < c + 1) := by omega
    rw [if_pos ⟨rfl, rfl⟩, if_pos hyes, hdead, cellUpdate_dead]
    simp only [nextAt, hcur]
  · rw [if_neg hrc, hf.2 r c hr hc]
    have hiff : (r < j ∨ (r = j ∧ c < n + 1)) ↔ (r < j ∨ (r = j ∧ c < n)) := by
      constructor
      · rintro (h | ⟨h1, h2⟩)
        · exact Or.inl h
        · refine Or.inr ⟨h1, ?_⟩
          have : c ≠ n := fun h => hrc ⟨h1, h⟩
          omega
      · rintro (h | ⟨h1, h2⟩)
        · exact Or.inl h
        · exact Or.inr ⟨h1, by omega⟩
    simp only [hiff]

theorem stepRow_upto {tiles rep : Grid} {W H j : Nat} (ht : Rect tiles W H)
    (hj : j < H) (hf : Filled tiles rep W H j 0) (n : Nat) (hn : n ≤ W) :
    ∃ rep2, stepRow n tiles j rep = some rep2 ∧ Filled tiles rep2 W H j n := by
  induction n with
  | zero => exact ⟨rep, rfl, hf⟩
  | succ n ih =>
    obtain ⟨rep1, h1, hf1⟩ := ih (by omega)
    obtain ⟨rep2, h2, hf2⟩ := stepCell_filled ht hj (show n < W by omega) hf1
    refine ⟨rep2, ?_, hf2⟩
    unfold stepRow at h1 ⊢
    rw [List.range_succ, List.foldlM_append, h1]
    simp [h2]

theorem Filled.nextRow {tiles rep : Grid} {W H j : Nat} (hf : Filled tiles rep W H j W) :
    Filled tiles rep W H (j + 1) 0 := by
  refine ⟨hf.1, fun r c hr hc => ?_⟩
  rw [hf.2 r c hr hc]
  have hiff : (r < j + 1 ∨ (r = j + 1 ∧ c < 0)) ↔ (r < j ∨ (r = j ∧ c < W)) := by
    constructor
    · rintro (h | ⟨_, h2⟩)
      · by_cases h3 : r < j
        · exact Or.inl h3
        · exact Or.inr ⟨by omega, hc⟩
      · omega
    · rintro (h | ⟨h1, _⟩)
      · exact Or.inl (by omega)
      · exact Or.inl (by omega)
  simp only [hiff]

theorem step_upto {tiles : Grid} {W H : Nat} (ht : Rect tiles W H) (j : Nat) (hj : j ≤ H) :
    ∃ rep, (List.range j).foldlM (fun rep y => stepRow W tiles y rep)
        (List.replicate H (List.replicate W SCell.dead)) = some rep ∧
      Filled tiles rep W H j 0 := by
  induction j with
  | zero =>
    refine ⟨_, rfl, ⟨by simp, fun r hr => ?_⟩, fun r c hr hc => ?_⟩
    · rw [(List.mem_replicate.1 hr).2]; simp
    · simp [cellAt, List.getElem?_replicate, hr, hc]
  | succ j ih =>
    obtain ⟨rep1, h1, hf1⟩ := ih (by omega)
    obtain ⟨rep2, h2, hf2⟩ := stepRow_upto ht (show j < H by omega) hf1 W (Nat.le_refl W)
    refine ⟨rep2, ?_, hf2.nextRow⟩
    rw [List.range_succ, List.foldlM_append, h1]
    simp [h2]

/-- One generation step on a `W × H` grid succeeds (no access is out of range) and
yields a `W × H` grid whose cell at `(x, y)` is `nextAt tiles W H x y`. -/
theorem step_spec {tiles : Grid} {W H : Nat} (ht : Rect tiles W H) :
    ∃ rep, step H W tiles = some rep ∧ Rect rep W H ∧
      ∀ x y, x < W → y < H → cellAt rep y x = some (nextAt tiles W H x y) := by
  obtain ⟨rep, h1, hf⟩ := step_upto ht H (Nat.le_refl H)
  refine ⟨rep, h1, hf.1, fun x y hx hy => ?_⟩
  rw [hf.2 y x hy hx, if_pos (Or.inl hy)]

theorem count_add_count_le (cs : List Nat) {a t : Nat} (hat : a ≠ t) :
    cs.count a + cs.count t ≤ cs.length := by
  induction cs with
  | nil => simp
  | cons c cs ih =>
    simp only [List.count_cons, List.length_cons, beq_iff_eq]
    split_ifs <;> omega

theorem count_four_le (cs : List Nat) {a b c t : Nat} (hab : a ≠ b) (hac : a ≠ c)
    (hbc : b ≠ c) (hat : a ≠ t) (hbt : b ≠ t) (hct : c ≠ t) :
    cs.count a + cs.count b + cs.count c + cs.count t ≤ cs.length := by
  induction cs with
  | nil => simp
  | cons d cs ih =>
    simp only [List.count_cons, List.length_cons, beq_iff_eq]
    split_ifs <;> omega

/-- When `neighbours` reports exactly three live neighbours, the colour it returns
is the `std::max_element` choice over the three scanned colours. -/
theorem neighbours_three {v : Grid} {W H x y : Nat} {n : SNeighbours} (hv : Rect v W H)
    (hx : x < W) (hy : y < H) (hn : neighbours v x y = some n) (h3 : n.counter = 3) :
    (liveColours v W H x y).length = 3 ∧ liveColours v W H x y ≠ [] ∧
      n.colour = majority (liveColours v W H x y) := by
  rw [neighbours_eq hv hx hy] at hn
  have hn2 := Option.some.inj hn
  subst hn2
  have hlen : (liveColours v W H x y).length = 3 := h3
  refine ⟨hlen, ?_, ?_⟩
  · intro h
    rw [h] at hlen
    simp at hlen
  · simp only [summary, if_pos hlen]

theorem tieGrid_tags (t : Nat) : tagCount tieGrid 3 3 1 1 t ≤ 1 := by
  have hcs : liveColours tieGrid 3 3 1 1 = [2, 4, 1] := by decide
  rw [tagCount_eq, hcs]
  simp only [List.count_cons, List.count_nil, beq_iff_eq]
  split_ifs <;> omega

/-! ## Patterns -/

theorem Rect.ext {g1 g2 : Grid} {W H : Nat} (h1 : Rect g1 W H) (h2 : Rect g2 W H)
    (hcells : ∀ x y, x < W → y < H → cellAt g1 y x = cellAt g2 y x) : g1 = g2 := by
  apply List.ext_getElem?
  intro row
  by_cases hr : row < H
  · obtain ⟨r1, hr1, hl1⟩ := h1.row hr
    obtain ⟨r2, hr2, hl2⟩ := h2.row hr
    rw [hr1, hr2]
    congr 1
    apply List.ext_getElem?
    intro col
    by_cases hc : col < W
    · have := hcells col row hc hr
      simpa [cellAt, hr1, hr2] using this
    · rw [List.getElem?_eq_none (by omega), List.getElem?_eq_none (by omega)]
  · rw [List.getElem?_eq_none (by rw [h1.1]; omega),
      List.getElem?_eq_none (by rw [h2.1]; omega)]

theorem aliveIn_outside (v : Grid) {W H : Nat} {px py : Int}
    (h : ¬ (0 ≤ px ∧ px < W ∧ 0 ≤ py ∧ py < H)) : aliveIn v W H px py = false := by
  rw [aliveIn_eq, liveColour_outside v h]
  rfl

/-- Membership of an integer position in the ALIVE set of a grid. -/
theorem AliveExactly.atInt {v : Grid} {W H : Nat} {P : Nat → Nat → Prop}
    (ha : AliveExactly v W H P) (px py : Int) :
    aliveIn v W H px py = true ↔
      (0 ≤ px ∧ px < W ∧ 0 ≤ py ∧ py < H) ∧ P px.toNat py.toNat := by
  by_cases h : 0 ≤ px ∧ px < W ∧ 0 ≤ py ∧ py < H
  · have hx : px = (px.toNat : Int) := by omega
    have hy : py = (py.toNat : Int) := by omega
    have := ha px.toNat (by omega) py.toNat (by omega)
    rw [← hx, ← hy] at this
    rw [this]
    exact ⟨fun hp => ⟨h, hp⟩, fun hp => hp.2⟩
  · rw [aliveIn_outside v h]
    exact ⟨fun hf => by simp at hf, fun hp => absurd hp.1 h⟩

theorem aliveIn_natCast (v : Grid) {W H x y : Nat} {cur : SCell} (hx : x < W) (hy : y < H)
    (hcur : cellAt v y x = some cur) :
    aliveIn v W H x y = decide (cur.state = EState.ALIVE) := by
  rw [aliveIn_eq, liveColour_natCast v hy hx, hcur]
  by_cases hs : cur.state = EState.ALIVE <;> simp [hs]

/-- The rule B3/S23 on ALIVE sets: after a step a cell is ALIVE exactly when it
was ALIVE with 2 or 3 ALIVE neighbours, or not ALIVE with exactly 3. -/
theorem step_alive {tiles : Grid} {W H : Nat} (ht : Rect tiles W H) :
    ∃ rep, step H W tiles = some rep ∧ Rect rep W H ∧
      AliveExactly rep W H (fun x y =>
        (aliveIn tiles W H x y = true ∧
          (aliveNeighbourCount tiles W H x y = 2 ∨ aliveNeighbourCount tiles W H x y = 3)) ∨
        (aliveIn tiles W H x y = false ∧ aliveNeighbourCount tiles W H x y = 3)) := by
  obtain ⟨rep, hstep, hrect, hcells⟩ := step_spec ht
  refine ⟨rep, hstep, hrect, fun x hx y hy => ?_⟩
  obtain ⟨cur, hcur⟩ := ht.cell hy hx
  beta_reduce
  rw [aliveIn_natCast rep hx hy (hcells x y hx hy), aliveIn_natCast tiles hx hy hcur,
    aliveNeighbourCount_eq]
  simp only [nextAt, hcur, nextCell, summary]
  by_cases hs : cur.state = EState.ALIVE
  · by_cases hc : (liveColours tiles W H x y).length < 2 ∨
        (liveColours tiles W H x y).length > 3
    · have h2 : ¬ ((liveColours tiles W H x y).length = 2 ∨
          (liveColours tiles W H x y).length = 3) := by omega
      simp [hs, hc, h2, SCell.dead]
    · have h2 : (liveColours tiles W H x y).length = 2 ∨
          (liveColours tiles W H x y).length = 3 := by omega
      simp [hs, hc, h2]
  · by_cases h3 : (liveColours tiles W H x y).length = 3
    · simp [hs, h3]
    · simp [hs, h3, SCell.dead]

theorem AliveExactly.congr {v : Grid} {W H : Nat} {P Q : Nat → Nat → Prop}
    (ha : AliveExactly v W H P) (hPQ : ∀ px py, px < W → py < H → (P px py ↔ Q px py)) :
    AliveExactly v W H Q :=
  fun px hpx py hpy => (ha px hpx py hpy).trans (hPQ px py hpx hpy)

theorem placed_at {v : Grid} {W H x y : Nat} {cells : List (Int × Int)}
    (ha : AliveExactly v W H (Placed cells x y)) (hfit : Fits cells W H x y) (qx qy : Int) :
    aliveIn v W H qx qy = true ↔ (qx - x, qy - y) ∈ cells := by
  rw [ha.atInt]
  unfold Placed
  constructor
  · rintro ⟨hin, hp⟩
    have hx : ((qx.toNat : Nat) : Int) = qx := by omega
    have hy : ((qy.toNat : Nat) : Int) = qy := by omega
    rwa [hx, hy] at hp
  · intro hp
    have hin := hfit _ hp
    simp only at hin
    have hin2 : 0 ≤ qx ∧ qx < W ∧ 0 ≤ qy ∧ qy < H := by omega
    have hx : ((qx.toNat : Nat) : Int) = qx := by omega
    have hy : ((qy.toNat : Nat) : Int) = qy := by omega
    refine ⟨hin2, ?_⟩
    rwa [hx, hy]

theorem count_placed {v : Grid} {W H x y : Nat} {cells : List (Int × Int)}
    (ha : AliveExactly v W H (Placed cells x y)) (hfit : Fits cells W H x y) (px py : Nat) :
    aliveNeighbourCount v W H px py = relCount cells ((px : Int) - x, (py : Int) - y) := by
  unfold aliveNeighbourCount relCount
  congr 2
  funext d
  have h := placed_at ha hfit ((px : Int) + d.1) ((py : Int) + d.2)
  have e1 : (px : Int) + d.1 - x = (px : Int) - x + d.1 := by omega
  have e2 : (py : Int) + d.2 - y = (py : Int) - y + d.2 := by omega
  rw [e1, e2] at h
  by_cases hm : ((px : Int) - x + d.1, (py : Int) - y + d.2) ∈ cells
  · simp [hm, h.2 hm]
  · have hf : aliveIn v W H ((px : Int) + d.1) ((py : Int) + d.2) = false := by
      rw [Bool.eq_false_iff]
      exact fun ht => hm (h.1 ht)
    simp [hm, hf]

/-- One generation of a finite pattern lying inside the grid. -/
theorem step_placed {tiles : Grid} {W H x y : Nat} {cells : List (Int × Int)}
    (ht : Rect tiles W H) (hfit : Fits cells W H x y)
    (ha : AliveExactly tiles W H (Placed cells x y)) :
    ∃ rep, step H W tiles = some rep ∧ Rect rep W H ∧
      AliveExactly rep W H
        (fun px py => relNext cells ((px : Int) - x, (py : Int) - y) = true) := by
  obtain ⟨rep, hstep, hrect, hrule⟩ := step_alive ht
  refine ⟨rep, hstep, hrect, hrule.congr (fun px py hpx hpy => ?_)⟩
  have hself := placed_at ha hfit px py
  rw [count_placed ha hfit px py]
  unfold relNext lifeRule
  by_cases hm : ((px : Int) - x, (py : Int) - y) ∈ cells
  · have halive : aliveIn tiles W H px py = true := hself.2 hm
    simp [hm, halive]
  · have hdead : aliveIn tiles W H px py = false := by
      rw [Bool.eq_false_iff]
      exact fun h => hm (hself.1 h)
    simp [hm, hdead]

theorem relNext_support {cells : List (Int × Int)} {r : Int × Int}
    (h : relNext cells r = true) : r ∈ candidates cells := by
  unfold candidates
  by_cases hm : r ∈ cells
  · exact List.mem_append_left _ hm
  · apply List.mem_append_right
    have hcnt : relCount cells r = 3 := by
      simpa [relNext, lifeRule, hm] using h
    have hne : mooreOffsets.filter
        (fun d => decide ((r.1 + d.1, r.2 + d.2) ∈ cells)) ≠ [] := by
      intro hnil
      unfold relCount at hcnt
      rw [hnil] at hcnt
      simp at hcnt
    obtain ⟨d, hd⟩ := List.exists_mem_of_ne_nil _ hne
    obtain ⟨hd1, hd2⟩ := List.mem_filter.1 hd
    have hd3 : (r.1 + d.1, r.2 + d.2) ∈ cells := of_decide_eq_true hd2
    refine List.mem_flatMap.2 ⟨_, hd3, List.mem_map.2 ⟨d, hd1, ?_⟩⟩
    ext <;> simp

theorem relNext_iff {cells next : List (Int × Int)}
    (h1 : ∀ r ∈ candidates cells, relNext cells r = true → r ∈ next)
    (h2 : ∀ r ∈ next, relNext cells r = true) (r : Int × Int) :
    relNext cells r = true ↔ r ∈ next :=
  ⟨fun h => h1 r (relNext_support h) h, h2 r⟩

theorem blinkerH_next (r : Int × Int) : relNext blinkerH r = true ↔ r ∈ blinkerV :=
  relNext_iff (by decide) (by decide) r

theorem blinkerV_next (r : Int × Int) : relNext blinkerV r = true ↔ r ∈ blinkerH :=
  relNext_iff (by decide) (by decide) r

theorem blockCells_next (r : Int × Int) : relNext blockCells r = true ↔ r ∈ blockCells :=
  relNext_iff (by decide) (by decide) r

theorem placed_blinkerH (x y px py : Nat) :
    Placed blinkerH x y px py ↔ blinkerLine false x y px py := by
  simp only [Placed, blinkerH, blinkerLine, List.mem_cons, Prod.mk.injEq, List.mem_nil_iff,
    or_false, Bool.false_eq_true, if_false]
  omega

theorem placed_blinkerV (x y px py : Nat) :
    Placed blinkerV x y px py ↔ blinkerLine true x y px py := by
  simp only [Placed, blinkerV, blinkerLine, List.mem_cons, Prod.mk.injEq, List.mem_nil_iff,
    or_false, if_true]
  omega

theorem fits_blinkerH {W H x y : Nat} (hx1 : 1 ≤ x) (hx2 : x + 1 < W) (hy : y < H) :
    Fits blinkerH W H x y := by
  intro c hc
  simp only [blinkerH, List.mem_cons, List.mem_nil_iff, or_false] at hc
  rcases hc with h | h | h <;> subst h <;> simp only <;> omega

theorem fits_blinkerV {W H x y : Nat} (hx : x < W) (hy1 : 1 ≤ y) (hy2 : y + 1 < H) :
    Fits blinkerV W H x y := by
  intro c hc
  simp only [blinkerV, List.mem_cons, List.mem_nil_iff, or_false] at hc
  rcases hc with h | h | h <;> subst h <;> simp only <;> omega

/-- One generation turns a blinker by a quarter turn about its centre. -/
theorem blinker_turn {tiles : Grid} {W H x y : Nat} (vert : Bool) (ht : Rect tiles W H)
    (hx1 : 1 ≤ x) (hx2 : x + 1 < W) (hy1 : 1 ≤ y) (hy2 : y + 1 < H)
    (ha : AliveExactly tiles W H (blinkerLine vert x y)) :
    ∃ rep, step H W tiles = some rep ∧ Rect rep W H ∧
      AliveExactly rep W H (blinkerLine (!vert) x y) := by
  cases vert with
  | false =>
    have ha2 : AliveExactly tiles W H (Placed blinkerH x y) :=
      ha.congr (fun px py _ _ => (placed_blinkerH x y px py).symm)
    obtain ⟨rep, hstep, hrect, hnext⟩ :=
      step_placed ht (fits_blinkerH hx1 hx2 (by omega)) ha2
    refine ⟨rep, hstep, hrect, hnext.congr (fun px py _ _ => ?_)⟩
    rw [blinkerH_next]
    exact placed_blinkerV x y px py
  | true =>
    have ha2 : AliveExactly tiles W H (Placed blinkerV x y) :=
      ha.congr (fun px py _ _ => (placed_blinkerV x y px py).symm)
    obtain ⟨rep, hstep, hrect, hnext⟩ :=
      step_placed ht (fits_blinkerV (by omega) hy1 hy2) ha2
    refine ⟨rep, hstep, hrect, hnext.congr (fun px py _ _ => ?_)⟩
    rw [blinkerV_next]
    exact placed_blinkerH x y px py

theorem blockAt_alive_iff (i j c00 c10 c01 c11 px py : Nat) :
    (blockAt i j c00 c10 c01 c11 px py).state = EState.ALIVE ↔
      Placed blockCells i j px py := by
  simp only [Placed, blockCells, List.mem_cons, Prod.mk.injEq, List.mem_nil_iff, or_false]
  unfold blockAt
  split_ifs with h1 h2 h3 h4
  · simp only [true_iff]; omega
  · simp only [true_iff]; omega
  · simp only [true_iff]; omega
  · simp only [true_iff]; omega
  · simp only [SCell.dead, reduceCtorEq, false_iff]; omega

theorem blockAt_dead (i j c00 c10 c01 c11 px py : Nat)
    (h : ¬ (blockAt i j c00 c10 c01 c11 px py).state = EState.ALIVE) :
    blockAt i j c00 c10 c01 c11 px py = SCell.dead := by
  unfold blockAt at h ⊢
  split_ifs at h ⊢ with h1 h2 h3 h4
  · exact absurd rfl h
  · exact absurd rfl h
  · exact absurd rfl h
  · exact absurd rfl h
  · rfl

theorem fits_blockCells {W H i j : Nat} (hi : i + 1 < W) (hj : j + 1 < H) :
    Fits blockCells W H i j := by
  intro c hc
  simp only [blockCells, List.mem_cons, List.mem_nil_iff, or_false] at hc
  rcases hc with h | h | h | h <;> subst h <;> simp only <;> omega

/-! ## The claims -/

/-- C2: for a cell `(x, y)` that is DEAD in the old grid, the generation step
succeeds and the new cell is ALIVE exactly when the old neighbour count is 3; an
ALIVE new cell has the colour returned by `neighbours`, and otherwise the new cell
is DEAD with colour 0. -/
theorem step_dead_cell (tiles : Grid) (W H x y : Nat) (cur : SCell) (ht : Rect tiles W H)
    (hx : x < W) (hy : y < H) (hcur : cellAt tiles y x = some cur)
    (hdead : cur.state = EState.DEAD) :
    ∃ rep n new, step H W tiles = some rep ∧ neighbours tiles x y = some n ∧
      cellAt rep y x = some new ∧
      (new.state = EState.ALIVE ↔ n.counter = 3) ∧
      (new.state = EState.ALIVE → new.colour = n.colour) ∧
      (new.state ≠ EState.ALIVE → new = ⟨EState.DEAD, 0⟩) := by
  obtain ⟨rep, hstep, _, hcells⟩ := step_spec ht
  have hne : ¬ cur.state = EState.ALIVE := by rw [hdead]; decide
  refine ⟨rep, _, _, hstep, neighbours_eq ht hx hy, hcells x y hx hy, ?_⟩
  simp only [nextAt, hcur, nextCell, if_neg hne]
  by_cases h3 : (summary (liveColours tiles W H x y)).counter = 3
  · simp [h3]
  · simp [h3, SCell.dead]

theorem step_dead_cell_witness :
    Rect pairGrid 4 3 ∧ cellAt pairGrid 1 1 = some SCell.dead ∧
      ∃ rep n new, step 3 4 pairGrid = some rep ∧ neighbours pairGrid 1 1 = some n ∧
        cellAt rep 1 1 = some new ∧
        (new.state = EState.ALIVE ↔ n.counter = 3) ∧
        (new.state = EState.ALIVE → new.colour = n.colour) ∧
        (new.state ≠ EState.ALIVE → new = ⟨EState.DEAD, 0⟩) :=
  ⟨by decide, by decide,
    step_dead_cell pairGrid 4 3 1 1 SCell.dead (by decide) (by decide) (by decide)
      (by decide) (by decide)⟩

/-- C3: a cell that is ALIVE in the old grid with a neighbour count of 2 or 3 is
copied unchanged into the new grid: it stays ALIVE and keeps its own colour. -/
theorem step_survivor (tiles : Grid) (W H x y : Nat) (cur : SCell) (n : SNeighbours)
    (ht : Rect tiles W H) (hx : x < W) (hy : y < H) (hcur : cellAt tiles y x = some cur)
    (halive : cur.state = EState.ALIVE) (hn : neighbours tiles x y = some n)
    (h23 : n.counter = 2 ∨ n.counter = 3) :
    ∃ rep, step H W tiles = some rep ∧ cellAt rep y x = some cur := by
  obtain ⟨rep, hstep, _, hcells⟩ := step_spec ht
  refine ⟨rep, hstep, ?_⟩
  rw [neighbours_eq ht hx hy] at hn
  have hn2 := Option.some.inj hn
  have hno : ¬ (n.counter < 2 ∨ n.counter > 3) := by omega
  rw [hcells x y hx hy]
  simp only [nextAt, hcur, nextCell, hn2, if_pos halive, if_neg hno]

theorem step_survivor_witness :
    Rect pairGrid 4 3 ∧ cellAt pairGrid 2 2 = some ⟨EState.ALIVE, 5⟩ ∧
      neighbours pairGrid 2 2 = some ⟨2, 0⟩ ∧
      ∃ rep, step 3 4 pairGrid = some rep ∧ cellAt rep 2 2 = some ⟨EState.ALIVE, 5⟩ :=
  ⟨by decide, by decide, by decide,
    step_survivor pairGrid 4 3 2 2 ⟨EState.ALIVE, 5⟩ ⟨2, 0⟩ (by decide) (by decide)
      (by decide) (by decide) rfl (by decide) (Or.inl rfl)⟩

/-- C4: a cell that is ALIVE in the old grid with a neighbour count below 2 or
above 3 (that is 0, 1, 4, 5, 6, 7 or 8) is DEAD in the new grid. -/
theorem step_death (tiles : Grid) (W H x y : Nat) (cur : SCell) (n : SNeighbours)
    (ht : Rect tiles W H) (hx : x < W) (hy : y < H) (hcur : cellAt tiles y x = some cur)
    (halive : cur.state = EState.ALIVE) (hn : neighbours tiles x y = some n)
    (hbad : n.counter < 2 ∨ n.counter > 3) :
    ∃ rep new, step H W tiles = some rep ∧ cellAt rep y x = some new ∧
      new.state = EState.DEAD := by
  obtain ⟨rep, hstep, _, hcells⟩ := step_spec ht
  refine ⟨rep, _, hstep, hcells x y hx hy, ?_⟩
  rw [neighbours_eq ht hx hy] at hn
  have hn2 := Option.some.inj hn
  simp only [nextAt, hcur, nextCell, hn2, if_pos halive, if_pos hbad]
  rfl

theorem step_death_witness :
    Rect pairGrid 4 3 ∧ cellAt pairGrid 0 2 = some ⟨EState.ALIVE, 5⟩ ∧
      neighbours pairGrid 2 0 = some ⟨1, 0⟩ ∧
      ∃ rep new, step 3 4 pairGrid = some rep ∧ cellAt rep 0 2 = some new ∧
        new.state = EState.DEAD :=
  ⟨by decide, by decide, by decide,
    step_death pairGrid 4 3 2 0 ⟨EState.ALIVE, 5⟩ ⟨1, 0⟩ (by decide) (by decide)
      (by decide) (by decide) rfl (by decide) (Or.inl (by decide))⟩

/-- C5: when `neighbours` returns a count of 3, the returned colour is the tag of
at least one ALIVE in-grid neighbour, and no tag is carried by more ALIVE
neighbours than the returned one. -/
theorem majority_is_most_common (v : Grid) (W H x y : Nat) (n : SNeighbours)
    (hv : Rect v W H) (hx : x < W) (hy : y < H) (hn : neighbours v x y = some n)
    (h3 : n.counter = 3) :
    0 < tagCount v W H x y n.colour ∧
      ∀ t, tagCount v W H x y t ≤ tagCount v W H x y n.colour := by
  obtain ⟨_, hne, hcol⟩ := neighbours_three hv hx hy hn h3
  obtain ⟨_, hmem, hmost, _⟩ := majority_spec hne
  simp only [tagCount_eq, hcol]
  exact ⟨List.count_pos_iff.2 hmem, hmost⟩

theorem majority_is_most_common_witness :
    Rect pairGrid 4 3 ∧ neighbours pairGrid 1 1 = some ⟨3, 5⟩ ∧
      0 < tagCount pairGrid 4 3 1 1 5 ∧
      ∀ t, tagCount pairGrid 4 3 1 1 t ≤ tagCount pairGrid 4 3 1 1 5 :=
  ⟨by decide, by decide,
    majority_is_most_common pairGrid 4 3 1 1 ⟨3, 5⟩ (by decide) (by decide) (by decide)
      (by decide) rfl⟩

/-- C6: a DEAD cell whose ALIVE in-grid neighbours are exactly three cells, two of
colour `A` and one of colour `B ≠ A`, wherever they sit among the neighbour
positions and whichever of `A`, `B` is numerically larger, is ALIVE with colour
`A` after the generation step. -/
theorem birth_two_of_three (tiles : Grid) (W H x y : Nat) (cur : SCell) (A B : Nat)
    (ht : Rect tiles W H) (hx : x < W) (hy : y < H) (hcur : cellAt tiles y x = some cur)
    (hdead : cur.state = EState.DEAD) (_hAB : A ≠ B)
    (h3 : aliveNeighbourCount tiles W H x y = 3) (hA : tagCount tiles W H x y A = 2)
    (_hB : tagCount tiles W H x y B = 1) :
    ∃ rep, step H W tiles = some rep ∧ cellAt rep y x = some ⟨EState.ALIVE, A⟩ := by
  obtain ⟨rep, hstep, _, hcells⟩ := step_spec ht
  refine ⟨rep, hstep, ?_⟩
  have hne : ¬ cur.state = EState.ALIVE := by rw [hdead]; decide
  rw [aliveNeighbourCount_eq] at h3
  rw [tagCount_eq] at hA
  have hnil : liveColours tiles W H x y ≠ [] := by
    intro h
    rw [h] at h3
    simp at h3
  obtain ⟨_, _, hmost, _⟩ := majority_spec hnil
  have hmaj : majority (liveColours tiles W H x y) = A := by
    by_contra hk
    have h1 := hmost A
    have h2 := count_add_count_le (liveColours tiles W H x y) (fun h => hk h.symm)
    omega
  rw [hcells x y hx hy]
  simp only [nextAt, hcur, nextCell, if_neg hne, summary, h3, if_true, hmaj]

theorem birth_two_of_three_witness :
    Rect pairGrid 4 3 ∧ cellAt pairGrid 1 1 = some SCell.dead ∧
      aliveNeighbourCount pairGrid 4 3 1 1 = 3 ∧ tagCount pairGrid 4 3 1 1 5 = 2 ∧
      tagCount pairGrid 4 3 1 1 3 = 1 ∧
      ∃ rep, step 3 4 pairGrid = some rep ∧ cellAt rep 1 1 = some ⟨EState.ALIVE, 5⟩ :=
  ⟨by decide, by decide, by decide, by decide, by decide,
    birth_two_of_three pairGrid 4 3 1 1 SCell.dead 5 3 (by decide) (by decide) (by decide)
      (by decide) (by decide) (by decide) (by decide) (by decide) (by decide)⟩

/-- C7: when a cell has exactly three ALIVE neighbours carrying three pairwise
distinct colour tags `a`, `b`, `c` (tally 1 each), the colour returned by
`neighbours` is the numerically lowest of the three, whatever positions the three
neighbours occupy. -/
theorem tie_returns_lowest (v : Grid) (W H x y : Nat) (n : SNeighbours) (a b c : Nat)
    (hv : Rect v W H) (hx : x < W) (hy : y < H) (hn : neighbours v x y = some n)
    (h3 : n.counter = 3) (hab : a ≠ b) (hac : a ≠ c) (hbc : b ≠ c)
    (ha : tagCount v W H x y a = 1) (hb : tagCount v W H x y b = 1)
    (hc : tagCount v W H x y c = 1) :
    n.colour = min a (min b c) := by
  obtain ⟨hlen, hne, hcol⟩ := neighbours_three hv hx hy hn h3
  obtain ⟨_, hmem, hmost, hleast⟩ := majority_spec hne
  rw [tagCount_eq] at ha hb hc
  rw [hcol]
  have hpos : 0 < (liveColours v W H x y).count (majority (liveColours v W H x y)) :=
    List.count_pos_iff.2 hmem
  have hone : (liveColours v W H x y).count (majority (liveColours v W H x y)) = 1 := by
    by_contra hk
    by_cases h1 : majority (liveColours v W H x y) = a
    · rw [h1] at hk; omega
    · have := count_add_count_le (liveColours v W H x y) (fun h => h1 h.symm)
      have := hmost a
      by_cases h2 : majority (liveColours v W H x y) = b
      · rw [h2] at hk; omega
      · by_cases h4 : majority (liveColours v W H x y) = c
        · rw [h4] at hk; omega
        · have := count_four_le (liveColours v W H x y) hab hac hbc
            (fun h => h1 h.symm) (fun h => h2 h.symm) (fun h => h4 h.symm)
          omega
  have hka := hleast a (by omega)
  have hkb := hleast b (by omega)
  have hkc := hleast c (by omega)
  have hin : majority (liveColours v W H x y) = a ∨ majority (liveColours v W H x y) = b ∨
      majority (liveColours v W H x y) = c := by
    by_contra hk
    have := count_four_le (liveColours v W H x y) hab hac hbc
      (fun h => hk (Or.inl h.symm)) (fun h => hk (Or.inr (Or.inl h.symm)))
      (fun h => hk (Or.inr (Or.inr h.symm)))
    omega
  omega

theorem tie_returns_lowest_witness :
    Rect tieGrid 3 3 ∧ neighbours tieGrid 1 1 = some ⟨3, 1⟩ ∧
      tagCount tieGrid 3 3 1 1 4 = 1 ∧ tagCount tieGrid 3 3 1 1 2 = 1 ∧
      tagCount tieGrid 3 3 1 1 1 = 1 ∧ (⟨3, 1⟩ : SNeighbours).colour = min 4 (min 2 1) :=
  ⟨by decide, by decide, by decide, by decide, by decide,
    tie_returns_lowest tieGrid 3 3 1 1 ⟨3, 1⟩ 4 2 1 (by decide) (by decide) (by decide)
      (by decide) rfl (by decide) (by decide) (by decide) (by decide) (by decide)
      (by decide)⟩

/-- C8 (refuted as stated): on `tieGrid` the cell `(1, 1)` has exactly three ALIVE
neighbours with the pairwise distinct tags 4, 2 and 1, one each, and `neighbours`
returns the tag 1, which is not the greatest tag 4. -/
theorem tie_not_greatest :
    Rect tieGrid 3 3 ∧ aliveNeighbourCount tieGrid 3 3 1 1 = 3 ∧
      tagCount tieGrid 3 3 1 1 4 = 1 ∧ tagCount tieGrid 3 3 1 1 2 = 1 ∧
      tagCount tieGrid 3 3 1 1 1 = 1 ∧ neighbours tieGrid 1 1 = some ⟨3, 1⟩ ∧
      (⟨3, 1⟩ : SNeighbours).colour ≠ max 4 (max 2 1) := by
  decide

/-- C8 (amended): when a cell has exactly three ALIVE neighbours and no tag is
carried by more than one of them (a three-way tie), the colour returned by
`neighbours` is the least tag under the numeric ordering: it is the tag of an
ALIVE neighbour and no ALIVE neighbour carries a smaller tag. -/
theorem tie_returns_least_tag (v : Grid) (W H x y : Nat) (n : SNeighbours)
    (hv : Rect v W H) (hx : x < W) (hy : y < H) (hn : neighbours v x y = some n)
    (h3 : n.counter = 3) (htie : ∀ t, tagCount v W H x y t ≤ 1) :
    0 < tagCount v W H x y n.colour ∧ ∀ t, 0 < tagCount v W H x y t → n.colour ≤ t := by
  obtain ⟨_, hne, hcol⟩ := neighbours_three hv hx hy hn h3
  obtain ⟨_, hmem, _, hleast⟩ := majority_spec hne
  simp only [tagCount_eq] at htie ⊢
  rw [hcol]
  have hpos : 0 < (liveColours v W H x y).count (majority (liveColours v W H x y)) :=
    List.count_pos_iff.2 hmem
  refine ⟨hpos, fun t ht => hleast t ?_⟩
  have h1 := htie t
  have h2 := htie (majority (liveColours v W H x y))
  omega

theorem tie_returns_least_tag_witness :
    Rect tieGrid 3 3 ∧ neighbours tieGrid 1 1 = some ⟨3, 1⟩ ∧
      (∀ t, tagCount tieGrid 3 3 1 1 t ≤ 1) ∧
      0 < tagCount tieGrid 3 3 1 1 1 ∧ ∀ t, 0 < tagCount tieGrid 3 3 1 1 t → 1 ≤ t :=
  ⟨by decide, by decide, tieGrid_tags,
    tie_returns_least_tag tieGrid 3 3 1 1 ⟨3, 1⟩ (by decide) (by decide) (by decide)
      (by decide) rfl tieGrid_tags⟩

/-- C9: on a rectangular grid holding a 2 × 2 block of ALIVE cells at any position
(corner `(i, j)`, so the grid is at least 2 × 2; the block may touch an edge or a
corner) with any four colours, every other cell being DEAD with no colour, one
generation step returns the very same grid, states and colours included. -/
theorem block_still_life (tiles : Grid) (W H i j c00 c10 c01 c11 : Nat)
    (ht : Rect tiles W H) (hi : i + 1 < W) (hj : j + 1 < H)
    (hcells : ∀ px, px < W → ∀ py, py < H →
      cellAt tiles py px = some (blockAt i j c00 c10 c01 c11 px py)) :
    step H W tiles = some tiles := by
  obtain ⟨rep, hstep, hrect, hnext⟩ := step_spec ht
  have ha : AliveExactly tiles W H (Placed blockCells i j) := by
    intro px hpx py hpy
    rw [aliveIn_natCast tiles hpx hpy (hcells px hpx py hpy), decide_eq_true_iff]
    exact blockAt_alive_iff i j c00 c10 c01 c11 px py
  have hfit : Fits blockCells W H i j := fits_blockCells hi hj
  rw [hstep]
  congr 1
  refine hrect.ext ht (fun x y hx hy => ?_)
  rw [hnext x y hx hy, hcells x hx y hy]
  congr 1
  have hcnt : (summary (liveColours tiles W H x y)).counter =
      relCount blockCells ((x : Int) - i, (y : Int) - j) := by
    rw [← count_placed ha hfit x y, aliveNeighbourCount_eq]
    rfl
  have hrel := blockCells_next ((x : Int) - i, (y : Int) - j)
  simp only [nextAt, hcells x hx y hy, nextCell, hcnt]
  by_cases hs : (blockAt i j c00 c10 c01 c11 x y).state = EState.ALIVE
  · have hm : Placed blockCells i j x y := (blockAt_alive_iff i j c00 c10 c01 c11 x y).1 hs
    have hn := hrel.2 hm
    unfold Placed at hm
    simp only [relNext, lifeRule, hm, decide_True, if_true, Bool.or_eq_true, beq_iff_eq] at hn
    have hno : ¬ (relCount blockCells ((x : Int) - i, (y : Int) - j) < 2 ∨
        relCount blockCells ((x : Int) - i, (y : Int) - j) > 3) := by omega
    rw [if_pos hs, if_neg hno]
  · have hm : ¬ Placed blockCells i j x y :=
      fun h => hs ((blockAt_alive_iff i j c00 c10 c01 c11 x y).2 h)
    have hn : ¬ relNext blockCells ((x : Int) - i, (y : Int) - j) = true :=
      fun h => hm (hrel.1 h)
    unfold Placed at hm
    simp only [relNext, lifeRule, hm, decide_False, Bool.false_eq_true, if_false,
      beq_iff_eq] at hn
    rw [if_neg hs, if_neg hn, blockAt_dead i j c00 c10 c01 c11 x y hs]

theorem block_still_life_witness :
    Rect blockGrid 2 2 ∧
      (∀ px, px < 2 → ∀ py, py < 2 →
        cellAt blockGrid py px = some (blockAt 0 0 1 2 3 4 px py)) ∧
      step 2 2 blockGrid = some blockGrid :=
  ⟨by decide, by decide,
    block_still_life blockGrid 2 2 0 0 1 2 3 4 (by decide) (by decide) (by decide)
      (by decide)⟩

/-- C10: on a grid whose ALIVE cells are exactly the three cells of a blinker
centred at `(x, y)`, all eight neighbour positions of the centre being inside the
grid, the ALIVE cells after one generation step are exactly the three cells of the
blinker in the other orientation, and after two steps exactly the original three.
With `vert = false` the blinker starts horizontal, `(x-1, y), (x, y), (x+1, y)`,
and becomes `(x, y-1), (x, y), (x, y+1)`; with `vert = true` the two orientations
are exchanged. -/
theorem blinker_oscillates (tiles : Grid) (W H x y : Nat) (vert : Bool)
    (ht : Rect tiles W H) (hx1 : 1 ≤ x) (hx2 : x + 1 < W) (hy1 : 1 ≤ y) (hy2 : y + 1 < H)
    (ha : AliveExactly tiles W H (blinkerLine vert x y)) :
    ∃ g1 g2, step H W tiles = some g1 ∧ AliveExactly g1 W H (blinkerLine (!vert) x y) ∧
      step H W g1 = some g2 ∧ AliveExactly g2 W H (blinkerLine vert x y) := by
  obtain ⟨g1, hs1, hr1, ha1⟩ := blinker_turn vert ht hx1 hx2 hy1 hy2 ha
  obtain ⟨g2, hs2, _, ha2⟩ := blinker_turn (!vert) hr1 hx1 hx2 hy1 hy2 ha1
  rw [Bool.not_not] at ha2
  exact ⟨g1, g2, hs1, ha1, hs2, ha2⟩

theorem blinker_oscillates_witness :
    Rect blinkerGrid 3 3 ∧ AliveExactly blinkerGrid 3 3 (blinkerLine false 1 1) ∧
      ∃ g1 g2, step 3 3 blinkerGrid = some g1 ∧
        AliveExactly g1 3 3 (blinkerLine (!false) 1 1) ∧
        step 3 3 g1 = some g2 ∧ AliveExactly g2 3 3 (blinkerLine false 1 1) :=
  ⟨by decide, by decide,
    blinker_oscillates blinkerGrid 3 3 1 1 false (by decide) (by decide) (by decide)
      (by decide) (by decide) (by decide)⟩

/-! ## Locality, bounds and safety of the analysis -/

theorem liveColours_congr {t1 t2 : Grid} {W H x y : Nat}
    (hnb : ∀ d ∈ mooreOffsets, 0 ≤ (x : Int) + d.1 → (x : Int) + d.1 < W →
      0 ≤ (y : Int) + d.2 → (y : Int) + d.2 < H →
      cellAt t1 ((y : Int) + d.2).toNat ((x : Int) + d.1).toNat =
        cellAt t2 ((y : Int) + d.2).toNat ((x : Int) + d.1).toNat) :
    liveColours t1 W H x y = liveColours t2 W H x y := by
  unfold liveColours
  apply List.filterMap_congr
  intro d hd
  have hd2 : d ∈ mooreOffsets := mooreOffsets_perm.mem_iff.2 hd
  unfold liveColour
  by_cases hin : 0 ≤ (x : Int) + d.1 ∧ (x : Int) + d.1 < W ∧ 0 ≤ (y : Int) + d.2 ∧
      (y : Int) + d.2 < H
  · rw [if_pos hin, if_pos hin, hnb d hd2 hin.1 hin.2.1 hin.2.2.1 hin.2.2.2]
  · rw [if_neg hin, if_neg hin]

/-- C11: the new cell at `(x, y)` is a function of the old grid only, and of no
more than the old cell at `(x, y)` and the old cells of its in-grid Moore
neighbourhood: two `W × H` grids that agree there get the same analysis from
`neighbours` and the same new cell at `(x, y)`; the step succeeds on both and
returns grids of the same dimensions `W × H`; the new cell is `nextAt` of the old
grid. (The analysis and the step take the old grid as a read-only argument and
return only their result, so the old grid is not modified.) -/
theorem step_reads_old_grid (t1 t2 : Grid) (W H x y : Nat) (h1 : Rect t1 W H)
    (h2 : Rect t2 W H) (hx : x < W) (hy : y < H) (hself : cellAt t1 y x = cellAt t2 y x)
    (hnb : ∀ d ∈ mooreOffsets, 0 ≤ (x : Int) + d.1 → (x : Int) + d.1 < W →
      0 ≤ (y : Int) + d.2 → (y : Int) + d.2 < H →
      cellAt t1 ((y : Int) + d.2).toNat ((x : Int) + d.1).toNat =
        cellAt t2 ((y : Int) + d.2).toNat ((x : Int) + d.1).toNat) :
    neighbours t1 x y = neighbours t2 x y ∧
      ∃ r1 r2, step H W t1 = some r1 ∧ step H W t2 = some r2 ∧ Rect r1 W H ∧
        Rect r2 W H ∧ cellAt r1 y x = cellAt r2 y x ∧
        cellAt r1 y x = some (nextAt t1 W H x y) := by
  have hcs := liveColours_congr hnb
  obtain ⟨r1, hs1, hr1, hc1⟩ := step_spec h1
  obtain ⟨r2, hs2, hr2, hc2⟩ := step_spec h2
  refine ⟨by rw [neighbours_eq h1 hx hy, neighbours_eq h2 hx hy, hcs],
    r1, r2, hs1, hs2, hr1, hr2, ?_, hc1 x y hx hy⟩
  rw [hc1 x y hx hy, hc2 x y hx hy]
  simp only [nextAt, hself, hcs]

theorem step_reads_old_grid_witness :
    Rect pairGrid 4 3 ∧ Rect pairGridFar 4 3 ∧ pairGrid ≠ pairGridFar ∧
      neighbours pairGrid 1 1 = neighbours pairGridFar 1 1 ∧
      ∃ r1 r2, step 3 4 pairGrid = some r1 ∧ step 3 4 pairGridFar = some r2 ∧
        Rect r1 4 3 ∧ Rect r2 4 3 ∧ cellAt r1 1 1 = cellAt r2 1 1 ∧
        cellAt r1 1 1 = some (nextAt pairGrid 4 3 1 1) :=
  ⟨by decide, by decide, by decide,
    step_reads_old_grid pairGrid pairGridFar 4 3 1 1 (by decide) (by decide) (by decide)
      (by decide) (by decide) (by decide)⟩

theorem cellAt_eq_none_iff {v : Grid} {W H : Nat} (hv : Rect v W H) (row col : Nat) :
    cellAt v row col = none ↔ ¬ (row < H ∧ col < W) := by
  constructor
  · rintro hnone ⟨hr, hc⟩
    obtain ⟨c, hcell⟩ := hv.cell hr hc
    rw [hcell] at hnone
    exact Option.noConfusion hnone
  · intro hout
    by_cases hr : row < H
    · obtain ⟨r, hr1, hr2⟩ := hv.row hr
      have hc : r.length ≤ col := by
        rw [hr2]
        exact Nat.le_of_not_lt (fun hc => hout ⟨hr, hc⟩)
      simp only [cellAt, hr1]
      exact List.getElem?_eq_none hc
    · have hlen : v.length ≤ row := by rw [hv.1]; omega
      simp only [cellAt, List.getElem?_eq_none hlen]

theorem toShort_of_lt {n : Nat} (h : n < 32768) : toShort (n : Int) = n := by
  unfold toShort
  omega

theorem toShort_bounds (z : Int) : -32768 ≤ toShort z ∧ toShort z ≤ 32767 := by
  unfold toShort
  omega

theorem toInt32_of_lt {z : Int} (h0 : 0 ≤ z) (h : z < 2 ^ 31) : toInt32 z = z := by
  unfold toInt32
  omega

theorem printRow_upto (v : Grid) (y : Nat) (r : List SCell) (hr : v[y]? = some r)
    (out : List ConsoleWrite) (n : Nat) (hn : n ≤ r.length) :
    (List.range n).foldlM (fun o x => printCell v y x o) out =
      some (out ++ (List.range n).flatMap (fun x =>
        match r[x]? with
        | some c => cellWrites c x y
        | none => [])) := by
  induction n with
  | zero => simp
  | succ n ih =>
    have hlt : n < r.length := by omega
    have hcell : cellAt v y n = some r[n] := by
      simp [cellAt, hr, List.getElem?_eq_getElem hlt]
    rw [List.range_succ, List.foldlM_append, ih (by omega), List.flatMap_append]
    simp [printCell, hcell, List.getElem?_eq_getElem hlt, cellWrites]

theorem printRow_eq (v : Grid) (y : Nat) (r : List SCell) (hr : v[y]? = some r)
    (out : List ConsoleWrite) : printRow v y out = some (out ++ rowWrites r y) := by
  unfold printRow rowWrites
  simp only [hr]
  exact printRow_upto v y r hr out r.length (Nat.le_refl _)

theorem printGrid_upto (v : Grid) (n : Nat) (hn : n ≤ v.length) :
    (List.range n).foldlM (fun o y => printRow v y o) [] =
      some ((List.range n).flatMap (fun y =>
        match v[y]? with
        | some r => rowWrites r y
        | none => [])) := by
  induction n with
  | zero => simp
  | succ n ih =>
    have hlt : n < v.length := by omega
    have hrow : v[n]? = some v[n] := List.getElem?_eq_getElem hlt
    rw [List.range_succ, List.foldlM_append, ih (by omega), List.flatMap_append]
    simp [printRow_eq v n v[n] hrow, hrow]

/-- The function `print` returns for every grid: no cell access of its loops is
out of range. -/
theorem print_eq (v : Grid) (gen : Int) :
    print v gen = some (gridWrites v ++
      [ConsoleWrite.attribute 0 (toShort v.length) white,
       ConsoleWrite.characters 0 (toShort v.length) (statusText v gen)]) := by
  have h : printGrid v = some (gridWrites v) := printGrid_upto v v.length (Nat.le_refl _)
  simp only [print, h]

theorem filter_flatMap_range {α : Type} (f : Nat → List α) (p : α → Bool) (i0 : Nat)
    (h : ∀ i, i ≠ i0 → (f i).filter p = []) (n : Nat) :
    ((List.range n).flatMap f).filter p = if i0 < n then (f i0).filter p else [] := by
  induction n with
  | zero => simp
  | succ n ih =>
    rw [List.range_succ, List.flatMap_append, List.filter_append, ih, List.flatMap_singleton]
    by_cases h1 : i0 < n
    · have h2 : i0 < n + 1 := by omega
      rw [if_pos h1, if_pos h2, h n (by omega), List.append_nil]
    · by_cases h3 : i0 = n
      · subst h3
        simp
      · have h2 : ¬ i0 < n + 1 := by omega
        rw [if_neg h1, if_neg h2, h n (fun h4 => h3 h4.symm)]
        rfl

theorem infix_flatMap_of_mem {α β : Type} (f : α → List β) {l : List α} {a : α}
    (h : a ∈ l) : f a <:+: l.flatMap f :=
  List.infix_of_mem_flatten (List.mem_map_of_mem f h)

theorem cellAt_row {v : Grid} {x y : Nat} {c : SCell} (hc : cellAt v y x = some c) :
    ∃ r, v[y]? = some r ∧ r[x]? = some c ∧ y < v.length ∧ x < r.length ∧ r ∈ v := by
  unfold cellAt at hc
  cases hr : v[y]? with
  | none => simp [hr] at hc
  | some r =>
    have hrx : r[x]? = some c := by simpa [hr] using hc
    obtain ⟨hy, _⟩ := List.getElem?_eq_some_iff.1 hr
    obtain ⟨hx, _⟩ := List.getElem?_eq_some_iff.1 hrx
    exact ⟨r, rfl, hrx, hy, hx, List.getElem?_mem hr⟩

theorem cellWrites_pos (c : SCell) (x y : Nat) :
    ∀ w ∈ cellWrites c x y, w.pos = (toShort x, toShort y) := by
  intro w hw
  simp only [cellWrites, List.mem_cons, List.mem_nil_iff, or_false] at hw
  rcases hw with h | h <;> rw [h] <;> rfl

theorem rowWrites_pos (r : List SCell) (y : Nat) :
    ∀ w ∈ rowWrites r y, ∃ x, x < r.length ∧ w.pos = (toShort x, toShort y) := by
  intro w hw
  unfold rowWrites at hw
  obtain ⟨x, hxr, hx⟩ := List.mem_flatMap.1 hw
  cases hc : r[x]? with
  | none => simp [hc] at hx
  | some c =>
    simp only [hc] at hx
    exact ⟨x, List.mem_range.1 hxr, cellWrites_pos c x y w hx⟩

theorem gridWrites_pos (v : Grid) :
    ∀ w ∈ gridWrites v, ∃ x y r, y < v.length ∧ r ∈ v ∧ x < r.length ∧
      w.pos = (toShort x, toShort y) := by
  intro w hw
  unfold gridWrites at hw
  obtain ⟨y, hy, hwy⟩ := List.mem_flatMap.1 hw
  cases hr : v[y]? with
  | none => simp [hr] at hwy
  | some r =>
    simp only [hr] at hwy
    obtain ⟨x, hx, hpos⟩ := rowWrites_pos r y w hwy
    exact ⟨x, y, r, List.mem_range.1 hy, List.getElem?_mem hr, hx, hpos⟩

/-- The two writes made for a cell are adjacent in the output of `print`. -/
theorem cellWrites_infix (v : Grid) (gen : Int) (x y : Nat) (c : SCell)
    (hc : cellAt v y x = some c) :
    ∃ out, print v gen = some out ∧ cellWrites c x y <:+: out := by
  refine ⟨_, print_eq v gen, ?_⟩
  obtain ⟨r, hr1, hr2, hy, hx, _⟩ := cellAt_row hc
  have h1 : cellWrites c x y <:+: rowWrites r y := by
    have := infix_flatMap_of_mem (fun x => match r[x]? with
      | some c => cellWrites c x y
      | none => []) (List.mem_range.2 hx)
    simpa only [hr2] using this
  have h2 : rowWrites r y <:+: gridWrites v := by
    have := infix_flatMap_of_mem (fun y => match v[y]? with
      | some r => rowWrites r y
      | none => []) (List.mem_range.2 hy)
    simpa only [hr1] using this
  exact (h1.trans h2).trans (List.prefix_append _ _).isInfix

/-- Every write of `print` is addressed to a `COORD` whose fields are in the
range of a `SHORT`. -/
theorem print_pos_bounds (v : Grid) (gen : Int) :
    ∃ out, print v gen = some out ∧
      ∀ w ∈ out, -32768 ≤ w.pos.1 ∧ w.pos.1 ≤ 32767 ∧ -32768 ≤ w.pos.2 ∧ w.pos.2 ≤ 32767 := by
  refine ⟨_, print_eq v gen, fun w hw => ?_⟩
  rcases List.mem_append.1 hw with h | h
  · obtain ⟨x, y, _, _, _, _, hpos⟩ := gridWrites_pos v w h
    rw [hpos]
    have bx := toShort_bounds x
    have by2 := toShort_bounds y
    exact ⟨bx.1, bx.2, by2.1, by2.2⟩
  · have bl := toShort_bounds v.length
    simp only [List.mem_cons, List.mem_nil_iff, or_false] at h
    rcases h with h | h <;> rw [h] <;> simp only [ConsoleWrite.pos] <;> omega

/-- On a grid of at most 32768 rows of at most 32768 cells, the writes of `print`
selected by a predicate that holds only for writes addressed to the cell position
`(x, y)` are those made for that cell. -/
theorem print_at (v : Grid) (gen : Int) (x y : Nat) (c : SCell)
    (hrows : v.length ≤ 32768) (hcols : ∀ r ∈ v, r.length ≤ 32768)
    (hc : cellAt v y x = some c) (q : ConsoleWrite → Bool)
    (hq : ∀ w, q w = true → w.pos = ((x : Int), (y : Int))) :
    ∃ out, print v gen = some out ∧ out.filter q = (cellWrites c x y).filter q := by
  refine ⟨_, print_eq v gen, ?_⟩
  obtain ⟨r, hr1, hr2, hy, hx, hrv⟩ := cellAt_row hc
  have hrl := hcols r hrv
  have hnil : ∀ l : List ConsoleWrite, (∀ w ∈ l, w.pos ≠ ((x : Int), (y : Int))) →
      l.filter q = [] := by
    intro l hl
    apply List.filter_eq_nil_iff.2
    intro w hw hqw
    exact hl w hw (hq w hqw)
  rw [List.filter_append]
  have hstatus : ([ConsoleWrite.attribute 0 (toShort v.length) white,
      ConsoleWrite.characters 0 (toShort v.length) (statusText v gen)]).filter q = [] := by
    apply hnil
    intro w hw
    have hlen : toShort (v.length : Int) ≠ (y : Int) := by
      unfold toShort
      omega
    simp only [List.mem_cons, List.mem_nil_iff, or_false] at hw
    rcases hw with h | h <;> rw [h] <;>
      simp only [ConsoleWrite.pos, ne_eq, Prod.mk.injEq, not_and] <;>
      exact fun _ => hlen
  rw [hstatus, List.append_nil]
  unfold gridWrites
  rw [filter_flatMap_range _ q y _ v.length, if_pos hy]
  · simp only [hr1]
    unfold rowWrites
    rw [filter_flatMap_range _ q x _ r.length, if_pos hx]
    · simp only [hr2]
    · intro i hi
      cases hci : r[i]? with
      | none => rfl
      | some ci =>
        obtain ⟨hil, _⟩ := List.getElem?_eq_some_iff.1 hci
        apply hnil
        intro w hw
        rw [cellWrites_pos ci i y w hw, toShort_of_lt (show i < 32768 by omega)]
        simp only [ne_eq, Prod.mk.injEq, not_and]
        intro h
        exact absurd (Int.ofNat.inj h) hi
  · intro i hi
    cases hri : v[i]? with
    | none => rfl
    | some ri =>
      obtain ⟨hil, _⟩ := List.getElem?_eq_some_iff.1 hri
      apply hnil
      intro w hw h
      obtain ⟨x2, _, hpos⟩ := rowWrites_pos ri i w hw
      rw [hpos, toShort_of_lt (show i < 32768 by omega)] at h
      have h2 : (i : Int) = (y : Int) := (Prod.mk.inj h).2
      exact hi (Int.ofNat.inj h2)

theorem print_at_of (v : Grid) (gen : Int) (x y : Nat) (c : SCell) (out : List ConsoleWrite)
    (hrows : v.length ≤ 32768) (hcols : ∀ r ∈ v, r.length ≤ 32768)
    (hp : print v gen = some out) (hc : cellAt v y x = some c) (q : ConsoleWrite → Bool)
    (hq : ∀ w, q w = true → w.pos = ((x : Int), (y : Int))) :
    out.filter q = (cellWrites c x y).filter q := by
  obtain ⟨out2, hp2, hf⟩ := print_at v gen x y c hrows hcols hc q hq
  rw [hp] at hp2
  rw [Option.some.inj hp2]
  exact hf

theorem print_cell (v : Grid) (gen : Int) (x y : Nat) (c : SCell)
    (hrows : v.length ≤ 32768) (hcols : ∀ r ∈ v, r.length ≤ 32768)
    (hc : cellAt v y x = some c) :
    ∃ out, print v gen = some out ∧
      attributesAt out x y =
        [ConsoleWrite.attribute x y (if c.colour = 0 then white else c.colour)] ∧
      charactersAt out x y =
        [ConsoleWrite.characters x y (if c.state = EState.ALIVE then "x" else ".")] := by
  obtain ⟨r, _, _, hy, hx, hrv⟩ := cellAt_row hc
  have hrl := hcols r hrv
  have hsx : toShort (x : Int) = x := toShort_of_lt (by omega)
  have hsy : toShort (y : Int) = y := toShort_of_lt (by omega)
  refine ⟨_, print_eq v gen, ?_, ?_⟩
  · unfold attributesAt
    rw [print_at_of v gen x y c _ hrows hcols (print_eq v gen) hc _
      (fun w hw => of_decide_eq_true (Bool.and_eq_true_iff.1 hw).2)]
    simp [cellWrites, ConsoleWrite.isAttribute, ConsoleWrite.pos, hsx, hsy]
  · unfold charactersAt
    rw [print_at_of v gen x y c _ hrows hcols (print_eq v gen) hc _
      (fun w hw => of_decide_eq_true (Bool.and_eq_true_iff.1 hw).2)]
    simp [cellWrites, ConsoleWrite.isAttribute, ConsoleWrite.pos, hsx, hsy]

theorem aliveTotal_eq (v : Grid)
    (h : v.flatten.countP (fun cell => decide (cell.state = EState.ALIVE)) < 2 ^ 31) :
    aliveTotal v =
      ((v.flatten.countP (fun cell => decide (cell.state = EState.ALIVE)) : Nat) : Int) := by
  have hfold : ∀ (l : Grid) (a : Nat),
      a + l.flatten.countP (fun cell => decide (cell.state = EState.ALIVE)) < 2 ^ 31 →
      l.foldl (fun total inner => toInt32 (total + countAlive inner)) (a : Int) =
        ((a + l.flatten.countP (fun cell => decide (cell.state = EState.ALIVE)) : Nat) :
          Int) := by
    intro l
    induction l with
    | nil => intro a _; simp
    | cons r l ih =>
      intro a ha
      rw [List.flatten_cons, List.countP_append] at ha
      have hstep : toInt32 ((a : Int) + (countAlive r : Int)) =
          ((a + countAlive r : Nat) : Int) := by
        rw [toInt32_of_lt (by omega) (by unfold countAlive; omega)]
        push_cast
        rfl
      rw [List.foldl_cons, hstep, ih (a + countAlive r) (by unfold countAlive; omega),
        List.flatten_cons, List.countP_append]
      unfold countAlive
      push_cast
      omega
  unfold aliveTotal
  have := hfold v 0 (by omega)
  simpa using this

theorem no_write_beyond (v : Grid) (gen : Int) (X Y : Int)
    (h : 32767 < X ∨ 32767 < Y) :
    ∃ out, print v gen = some out ∧ attributesAt out X Y = [] ∧ charactersAt out X Y = [] := by
  obtain ⟨out, hp, hb⟩ := print_pos_bounds v gen
  refine ⟨out, hp, ?_, ?_⟩
  · apply List.filter_eq_nil_iff.2
    intro w hw hq
    have hpos : w.pos = (X, Y) := of_decide_eq_true (Bool.and_eq_true_iff.1 hq).2
    have := hb w hw
    rw [hpos] at this
    simp only at this
    omega
  · apply List.filter_eq_nil_iff.2
    intro w hw hq
    have hpos : w.pos = (X, Y) := of_decide_eq_true (Bool.and_eq_true_iff.1 hq).2
    have := hb w hw
    rw [hpos] at this
    simp only at this
    omega

theorem gridWrites_of_empty_rows {v : Grid} (h : ∀ r ∈ v, r = []) : gridWrites v = [] := by
  unfold gridWrites
  apply List.flatMap_eq_nil_iff.2
  intro y _
  cases hr : v[y]? with
  | none => rfl
  | some r =>
    simp only
    rw [h r (List.getElem?_mem hr)]
    rfl

/-! ## The claims on rendering -/

/-- C14 (refuted as stated): the one row of `wideGrid` has a cell at `(32768, 0)`,
but `print` makes no attribute write and no character write addressed to
`(X, Y) = (32768, 0)`: the index is stored in the 16-bit field `COORD.X`, and the
two writes made for that cell are addressed to `X = -32768`. -/
theorem print_wide_column :
    cellAt wideGrid 0 32768 = some SCell.dead ∧
      ∃ out, print wideGrid 0 = some out ∧ attributesAt out 32768 0 = [] ∧
        charactersAt out 32768 0 = [] ∧
        [ConsoleWrite.attribute (-32768) 0 7, ConsoleWrite.characters (-32768) 0 "."] <:+:
          out := by
  have hcell : cellAt wideGrid 0 32768 = some SCell.dead := by
    unfold cellAt wideGrid
    rw [List.getElem?_cons_zero]
    show (List.replicate 32769 SCell.dead)[32768]? = some SCell.dead
    rw [List.getElem?_replicate, if_pos (by decide)]
  obtain ⟨out, hp, hinf⟩ := cellWrites_infix wideGrid 0 32768 0 SCell.dead hcell
  obtain ⟨out2, hp2, ha, hch⟩ := no_write_beyond wideGrid 0 32768 0 (Or.inl (by decide))
  rw [hp] at hp2
  have he : out2 = out := (Option.some.inj hp2).symm
  subst he
  have hw : cellWrites SCell.dead 32768 0 =
      [ConsoleWrite.attribute (-32768) 0 7, ConsoleWrite.characters (-32768) 0 "."] := by
    decide
  rw [hw] at hinf
  exact ⟨hcell, out2, hp, ha, hch, hinf⟩

/-- C14 (amended): for every grid of at most 32768 rows of at most 32768 cells
each, so that every cell index fits the 16-bit signed fields of a `COORD`, and
every cell `(x, y)` of it, `print` returns and its output holds exactly one
attribute write and exactly one character write addressed to `(X, Y) = (x, y)`:
the attribute is the cell's colour tag when that is non-zero and the white
attribute 7 (all three channels) when the cell has no colour tag, and the
character is `x` for an ALIVE cell and `.` otherwise. -/
theorem print_cell_writes (v : Grid) (gen : Int) (x y : Nat) (c : SCell)
    (hrows : v.length ≤ 32768) (hcols : ∀ r ∈ v, r.length ≤ 32768)
    (hc : cellAt v y x = some c) :
    ∃ out, print v gen = some out ∧
      attributesAt out x y =
        [ConsoleWrite.attribute x y (if c.colour = 0 then 7 else c.colour)] ∧
      charactersAt out x y =
        [ConsoleWrite.characters x y (if c.state = EState.ALIVE then "x" else ".")] :=
  print_cell v gen x y c hrows hcols hc

theorem print_cell_writes_witness :
    pairGrid.length ≤ 32768 ∧ (∀ r ∈ pairGrid, r.length ≤ 32768) ∧
      cellAt pairGrid 0 2 = some ⟨EState.ALIVE, 5⟩ ∧
      ∃ out, print pairGrid 9 = some out ∧
        attributesAt out ((2 : Nat) : Int) ((0 : Nat) : Int) =
          [ConsoleWrite.attribute ((2 : Nat) : Int) ((0 : Nat) : Int)
            (if (⟨EState.ALIVE, 5⟩ : SCell).colour = 0 then 7
              else (⟨EState.ALIVE, 5⟩ : SCell).colour)] ∧
        charactersAt out ((2 : Nat) : Int) ((0 : Nat) : Int) =
          [ConsoleWrite.characters ((2 : Nat) : Int) ((0 : Nat) : Int)
            (if (⟨EState.ALIVE, 5⟩ : SCell).state = EState.ALIVE then "x" else ".")] :=
  ⟨by decide, by decide, by decide,
    print_cell_writes pairGrid 9 2 0 ⟨EState.ALIVE, 5⟩ (by decide) (by decide) (by decide)⟩

/-- C15 (refuted as stated): the cell `(0, 0)` of `staleGrid` is DEAD and its colour
field holds 5; `print` draws it with the attribute 5, which is not the white
attribute. -/
theorem print_dead_not_white :
    cellAt staleGrid 0 0 = some ⟨EState.DEAD, 5⟩ ∧
      print staleGrid 0 = some
        [ConsoleWrite.attribute 0 0 5, ConsoleWrite.characters 0 0 ".",
         ConsoleWrite.attribute 1 0 7, ConsoleWrite.characters 1 0 ".",
         ConsoleWrite.attribute 0 1 7,
         ConsoleWrite.characters 0 1 "Generation: 0 | Alive: 0"] ∧
      (5 : Nat) ≠ white := by
  decide

/-- C15 (amended): for every grid passed to `print`, a DEAD cell whose colour field
is 0 is drawn with the white attribute, and a DEAD cell whose colour field holds a
non-zero value is drawn with that value: the attribute depends on the colour field
only, not on the state. The attribute write and the character write `.` made for
the cell are adjacent in the output, addressed to the `COORD` of the cell; on a
grid of at most 32768 rows of at most 32768 cells they are the only writes
addressed to `(x, y)`. -/
theorem print_dead_cell (v : Grid) (gen : Int) (x y : Nat) (c : SCell)
    (hc : cellAt v y x = some c) (hd : c.state = EState.DEAD) :
    ∃ out, print v gen = some out ∧
      (c.colour = 0 →
        [ConsoleWrite.attribute (toShort x) (toShort y) white,
         ConsoleWrite.characters (toShort x) (toShort y) "."] <:+: out) ∧
      (c.colour ≠ 0 →
        [ConsoleWrite.attribute (toShort x) (toShort y) c.colour,
         ConsoleWrite.characters (toShort x) (toShort y) "."] <:+: out) ∧
      (v.length ≤ 32768 → (∀ r ∈ v, r.length ≤ 32768) →
        charactersAt out x y = [ConsoleWrite.characters x y "."] ∧
        (c.colour = 0 → attributesAt out x y = [ConsoleWrite.attribute x y white]) ∧
        (c.colour ≠ 0 → attributesAt out x y = [ConsoleWrite.attribute x y c.colour])) := by
  obtain ⟨out, hp, hinf⟩ := cellWrites_infix v gen x y c hc
  have hne : ¬ c.state = EState.ALIVE := by rw [hd]; decide
  simp only [cellWrites, if_neg hne] at hinf
  refine ⟨out, hp, fun h0 => ?_, fun h0 => ?_, fun hrows hcols => ?_⟩
  · simpa only [if_pos h0] using hinf
  · simpa only [if_neg h0] using hinf
  · obtain ⟨out2, hp2, ha, hch⟩ := print_cell v gen x y c hrows hcols hc
    rw [hp] at hp2
    have he : out2 = out := (Option.some.inj hp2).symm
    subst he
    refine ⟨by rw [hch, if_neg hne], fun h0 => ?_, fun h0 => ?_⟩
    · rw [ha, if_pos h0]
    · rw [ha, if_neg h0]

theorem print_dead_cell_witness :
    cellAt staleGrid 0 1 = some ⟨EState.DEAD, 0⟩ ∧
      ∃ out, print staleGrid 0 = some out ∧
        ((⟨EState.DEAD, 0⟩ : SCell).colour = 0 →
          [ConsoleWrite.attribute (toShort ((1 : Nat) : Int)) (toShort ((0 : Nat) : Int)) white,
           ConsoleWrite.characters (toShort ((1 : Nat) : Int)) (toShort ((0 : Nat) : Int))
             "."] <:+: out) ∧
        ((⟨EState.DEAD, 0⟩ : SCell).colour ≠ 0 →
          [ConsoleWrite.attribute (toShort ((1 : Nat) : Int)) (toShort ((0 : Nat) : Int))
             (⟨EState.DEAD, 0⟩ : SCell).colour,
           ConsoleWrite.characters (toShort ((1 : Nat) : Int)) (toShort ((0 : Nat) : Int))
             "."] <:+: out) ∧
        (staleGrid.length ≤ 32768 → (∀ r ∈ staleGrid, r.length ≤ 32768) →
          charactersAt out ((1 : Nat) : Int) ((0 : Nat) : Int) =
            [ConsoleWrite.characters ((1 : Nat) : Int) ((0 : Nat) : Int) "."] ∧
          ((⟨EState.DEAD, 0⟩ : SCell).colour = 0 →
            attributesAt out ((1 : Nat) : Int) ((0 : Nat) : Int) =
              [ConsoleWrite.attribute ((1 : Nat) : Int) ((0 : Nat) : Int) white]) ∧
          ((⟨EState.DEAD, 0⟩ : SCell).colour ≠ 0 →
            attributesAt out ((1 : Nat) : Int) ((0 : Nat) : Int) =
              [ConsoleWrite.attribute ((1 : Nat) : Int) ((0 : Nat) : Int)
                (⟨EState.DEAD, 0⟩ : SCell).colour])) :=
  ⟨by decide, print_dead_cell staleGrid 0 1 0 ⟨EState.DEAD, 0⟩ (by decide) rfl⟩

/-- C16 (refuted as stated): `tallGrid` has 32768 rows, and `print` writes no text
at `(X, Y) = (0, 32768)`: the height is stored in the 16-bit field `COORD.Y` and
the status line is addressed to `Y = -32768`. `crowdedGrid` holds `2^31` ALIVE
cells, which the `int` accumulator of `print` counts as `-2147483648`. -/
theorem print_status_wraps :
    tallGrid.length = 32768 ∧
      (∃ out, print tallGrid 0 = some out ∧ charactersAt out 0 32768 = [] ∧
        out = [ConsoleWrite.attribute 0 (-32768) 7,
          ConsoleWrite.characters 0 (-32768) "Generation: 0 | Alive: 0"]) ∧
      crowdedGrid.flatten.countP (fun cell => decide (cell.state = EState.ALIVE)) =
        2147483648 ∧
      statusText crowdedGrid 0 = "Generation: 0 | Alive: -2147483648" := by
  have hlen : tallGrid.length = 32768 := by
    unfold tallGrid
    rw [List.length_replicate]
  have hrows : ∀ r ∈ tallGrid, r = [] := fun r hr => (List.mem_replicate.1 hr).2
  have hflat : tallGrid.flatten = [] := by
    unfold tallGrid
    exact List.flatten_replicate_nil
  have halive : aliveTotal tallGrid = ((0 : Nat) : Int) := by
    rw [aliveTotal_eq tallGrid (by rw [hflat]; decide), hflat]
    rfl
  have htext : statusText tallGrid 0 = "Generation: 0 | Alive: 0" := by
    unfold statusText
    rw [halive]
    decide
  have hcount : countAlive (List.replicate 2147483648 (⟨EState.ALIVE, 0⟩ : SCell)) =
      2147483648 := by
    unfold countAlive
    rw [List.countP_replicate, if_pos (by decide)]
  have hcrowd : aliveTotal crowdedGrid = -2147483648 := by
    unfold aliveTotal crowdedGrid
    rw [List.foldl_cons, List.foldl_nil, hcount]
    decide
  refine ⟨hlen, ?_, ?_, ?_⟩
  · obtain ⟨out, hp, _, hch⟩ := no_write_beyond tallGrid 0 0 32768 (Or.inr (by decide))
    refine ⟨out, hp, hch, ?_⟩
    rw [print_eq, gridWrites_of_empty_rows hrows, hlen, htext] at hp
    rw [← Option.some.inj hp]
    decide
  · unfold crowdedGrid
    rw [List.flatten_cons, List.flatten_nil, List.append_nil]
    exact hcount
  · unfold statusText
    rw [hcrowd]
    decide

/-- C16 (amended): for every grid of at most 32767 rows with fewer than `2^31`
ALIVE cells and every non-negative generation number `g`, `print` returns and the
one text it writes at column 0 of the row below the grid (`Y = HEIGHT`) is
`Generation: ` followed by `g` in decimal, ` | Alive: ` and the number of ALIVE
cells of the whole grid in decimal; it is preceded by a white attribute write at
the same position. On the 1 × 1 grid with one ALIVE cell without colour, at
generation 0, the output is the character `x` drawn white and the status line
`Generation: 0 | Alive: 1`. -/
theorem print_status (v : Grid) (g : Nat) (hrows : v.length ≤ 32767)
    (halive : v.flatten.countP (fun cell => decide (cell.state = EState.ALIVE)) < 2 ^ 31) :
    (∃ out, print v (g : Int) = some out ∧
      charactersAt out 0 v.length =
        [ConsoleWrite.characters 0 v.length
          ("Generation: " ++ toString g ++ " | Alive: " ++
            toString (v.flatten.countP (fun cell => decide (cell.state = EState.ALIVE))))] ∧
      attributesAt out 0 v.length = [ConsoleWrite.attribute 0 v.length 7]) ∧
    print oneGrid 0 = some
      [ConsoleWrite.attribute 0 0 7, ConsoleWrite.characters 0 0 "x",
       ConsoleWrite.attribute 0 1 7,
       ConsoleWrite.characters 0 1 "Generation: 0 | Alive: 1"] := by
  have hsl : toShort (v.length : Int) = v.length := toShort_of_lt (by omega)
  have hgrid : ∀ w ∈ gridWrites v, w.pos ≠ ((0 : Int), (v.length : Int)) := by
    intro w hw h
    obtain ⟨x, y, _, hy, _, _, hpos⟩ := gridWrites_pos v w hw
    rw [hpos, toShort_of_lt (show y < 32768 by omega)] at h
    have h2 : (y : Int) = (v.length : Int) := (Prod.mk.inj h).2
    omega
  have htext : statusText v (g : Int) =
      "Generation: " ++ toString g ++ " | Alive: " ++
        toString (v.flatten.countP (fun cell => decide (cell.state = EState.ALIVE))) := by
    unfold statusText
    rw [aliveTotal_eq v halive]
    rfl
  refine ⟨⟨_, print_eq v g, ?_, ?_⟩, by decide⟩
  · unfold charactersAt
    rw [List.filter_append]
    have hnil : (gridWrites v).filter
        (fun w => !w.isAttribute && decide (w.pos = ((0 : Int), (v.length : Int)))) = [] := by
      apply List.filter_eq_nil_iff.2
      intro w hw hq
      exact hgrid w hw (of_decide_eq_true (Bool.and_eq_true_iff.1 hq).2)
    rw [hnil, hsl, htext]
    simp [ConsoleWrite.isAttribute, ConsoleWrite.pos]
  · unfold attributesAt
    rw [List.filter_append]
    have hnil : (gridWrites v).filter
        (fun w => w.isAttribute && decide (w.pos = ((0 : Int), (v.length : Int)))) = [] := by
      apply List.filter_eq_nil_iff.2
      intro w hw hq
      exact hgrid w hw (of_decide_eq_true (Bool.and_eq_true_iff.1 hq).2)
    rw [hnil, hsl]
    simp [ConsoleWrite.isAttribute, ConsoleWrite.pos]
    rfl

theorem print_status_witness :
    pairGrid.length ≤ 32767 ∧
      pairGrid.flatten.countP (fun cell => decide (cell.state = EState.ALIVE)) < 2 ^ 31 ∧
      (∃ out, print pairGrid ((3 : Nat) : Int) = some out ∧
        charactersAt out 0 pairGrid.length =
          [ConsoleWrite.characters 0 pairGrid.length
            ("Generation: " ++ toString 3 ++ " | Alive: " ++
              toString (pairGrid.flatten.countP
                (fun cell => decide (cell.state = EState.ALIVE))))] ∧
        attributesAt out 0 pairGrid.length = [ConsoleWrite.attribute 0 pairGrid.length 7]) ∧
      print oneGrid 0 = some
        [ConsoleWrite.attribute 0 0 7, ConsoleWrite.characters 0 0 "x",
         ConsoleWrite.attribute 0 1 7,
         ConsoleWrite.characters 0 1 "Generation: 0 | Alive: 1"] :=
  ⟨by decide, by decide, print_status pairGrid 3 (by decide) (by decide)⟩

/-! ## The driver loop -/

theorem run_spec {tiles0 : Grid} {W H : Nat} (ht : Rect tiles0 W H) (n : Nat) :
    ∃ s, run H W n ⟨tiles0, 0, []⟩ = some s ∧ Rect s.tiles W H ∧ s.generation = n ∧
      s.rendered.length = n ∧ stepN H W n tiles0 = some s.tiles ∧
      ∀ k, 1 ≤ k → k ≤ n →
        ∃ g, stepN H W k tiles0 = some g ∧ s.rendered[k - 1]? = some (g, (k : Int) - 1) := by
  induction n with
  | zero =>
    exact ⟨⟨tiles0, 0, []⟩, rfl, ht, rfl, rfl, rfl, fun k h1 h2 => absurd h1 (by omega)⟩
  | succ n ih =>
    obtain ⟨s, hrun, hrect, hgen, hlen, hsteps, hk⟩ := ih
    obtain ⟨rep, hstep, hrep, _⟩ := step_spec hrect
    have hprint := print_eq rep s.generation
    have hiter : iteration H W s =
        some ⟨rep, s.generation + 1, s.rendered ++ [(rep, s.generation)]⟩ := by
      simp only [iteration, hstep, hprint]
    have hstepN : stepN H W (n + 1) tiles0 = some rep := by
      simp only [stepN, hsteps, Option.some_bind, hstep]
    have hrun2 : run H W (n + 1) ⟨tiles0, 0, []⟩ =
        some ⟨rep, s.generation + 1, s.rendered ++ [(rep, s.generation)]⟩ := by
      simp only [run, hrun, Option.some_bind, hiter]
    refine ⟨_, hrun2, hrep, ?_, ?_, hstepN, ?_⟩
    · simp only [hgen]
      push_cast
      rfl
    · simp only [List.length_append, hlen, List.length_singleton]
    · intro k h1 h2
      by_cases hkn : k ≤ n
      · obtain ⟨g, hg1, hg2⟩ := hk k h1 hkn
        refine ⟨g, hg1, ?_⟩
        simp only
        rw [List.getElem?_append_left (by omega)]
        exact hg2
      · have hke : k = n + 1 := by omega
        subst hke
        refine ⟨rep, hstepN, ?_⟩
        simp only
        rw [List.getElem?_append_right (by omega)]
        have hidx : n + 1 - 1 - s.rendered.length = 0 := by omega
        rw [hidx, hgen]
        simp

/-- C17 (refuted as stated): on the 2 × 2 block grid the first iteration of the
loop renders the grid obtained after one step together with the generation
number 0, not 1: the call is `print(tiles, handle, generation++)`. -/
theorem first_render_generation_zero :
    run 2 2 1 ⟨blockGrid, 0, []⟩ = some ⟨blockGrid, 1, [(blockGrid, 0)]⟩ ∧
      stepN 2 2 1 blockGrid = some blockGrid ∧ ((0 : Int) ≠ 1) := by
  decide

/-- C17 (amended): each iteration performs the step, then renders with the value
the counter has before its increment, and increments the counter: after `n`
iterations the counter is `n` (one more per iteration, never reset), `n` render
calls have been made, and for every `k` with `1 ≤ k ≤ n` the `k`-th render call
received the grid obtained after `k` steps from the initial grid together with the
generation number `k - 1`. -/
theorem run_renders (tiles0 : Grid) (W H n : Nat) (ht : Rect tiles0 W H) :
    ∃ s, run H W n ⟨tiles0, 0, []⟩ = some s ∧ s.generation = n ∧ s.rendered.length = n ∧
      ∀ k, 1 ≤ k → k ≤ n →
        ∃ g, stepN H W k tiles0 = some g ∧ s.rendered[k - 1]? = some (g, (k : Int) - 1) := by
  obtain ⟨s, h1, _, h3, h4, _, h6⟩ := run_spec ht n
  exact ⟨s, h1, h3, h4, h6⟩

theorem run_renders_witness :
    Rect blinkerGrid 3 3 ∧
      ∃ s, run 3 3 2 ⟨blinkerGrid, 0, []⟩ = some s ∧ s.generation = (2 : Nat) ∧
        s.rendered.length = 2 ∧
        ∀ k, 1 ≤ k → k ≤ 2 →
          ∃ g, stepN 3 3 k blinkerGrid = some g ∧
            s.rendered[k - 1]? = some (g, (k : Int) - 1) :=
  ⟨by decide, run_renders blinkerGrid 3 3 2 (by decide)⟩

/-! ## The colour discipline of reachable grids -/

theorem orChannel_bounds (c k : Nat) (hc : c ≤ 7) :
    1 ≤ orChannel (k % 3) c ∧ orChannel (k % 3) c ≤ 7 := by
  have hk : k % 3 < 3 := Nat.mod_lt _ (by decide)
  interval_cases (k % 3) <;> interval_cases c <;> decide

theorem goodCell_dead : GoodCell SCell.dead :=
  ⟨fun h => absurd h (by decide), fun _ => rfl⟩

theorem colourLoop_spec (rnd : Nat → Nat) {W H Y X : Nat} (hY : Y < H) (hX : X < W)
    (fuel : Nat) :
    ∀ (idx i : Nat) (g : Grid) (c : SCell), idx ≤ 3 → 4 ≤ fuel + idx → Rect g W H →
      (∀ row col c2, ¬ (row = Y ∧ col = X) → cellAt g row col = some c2 → GoodCell c2) →
      cellAt g Y X = some c → c.state = EState.ALIVE → c.colour ≤ 7 →
      (1 ≤ idx → 1 ≤ c.colour) →
      ∃ i2 g2, colourLoop rnd Y X fuel idx i g = some (i2, g2) ∧ Rect g2 W H ∧
        ColourInv g2 := by
  induction fuel with
  | zero =>
    intro idx i g c h3 h4
    omega
  | succ fuel ih =>
    intro idx i g c h3 h4 hrect hothers hcell halive hle hpos
    unfold colourLoop
    by_cases hcond : idx < rnd i % 3 + 1
    · rw [if_pos hcond]
      have hmod : rnd i % 3 < 3 := Nat.mod_lt _ (by decide)
      obtain ⟨c0, g2, hc0, hmod2, hrect2, hcells2⟩ := modifyCell_spec hrect hY hX
        (fun c => { c with colour := orChannel (rnd (i + 1) % 3) c.colour })
      rw [hcell] at hc0
      have hcc : c0 = c := (Option.some.inj hc0).symm
      subst hcc
      simp only [hmod2]
      have hb := orChannel_bounds c0.colour (rnd (i + 1)) hle
      refine ih (idx + 1) (i + 2) g2
        { c0 with colour := orChannel (rnd (i + 1) % 3) c0.colour }
        (by omega) (by omega) hrect2 ?_ ?_ halive hb.2 (fun _ => hb.1)
      · intro row col c2 hne hc2
        rw [hcells2 row col, if_neg hne] at hc2
        exact hothers row col c2 hne hc2
      · rw [hcells2 Y X, if_pos ⟨rfl, rfl⟩]
    · rw [if_neg hcond]
      refine ⟨i + 1, g, rfl, hrect, ?_⟩
      intro row col c2 hc2
      by_cases hpos2 : row = Y ∧ col = X
      · obtain ⟨h1, h2⟩ := hpos2
        subst h1 h2
        rw [hcell] at hc2
        have hcc : c2 = c := (Option.some.inj hc2).symm
        subst hcc
        refine ⟨fun _ => ⟨hpos (by omega), hle⟩, fun hd => ?_⟩
        rw [halive] at hd
        exact absurd hd (by decide)
      · exact hothers row col c2 hpos2 hc2

theorem seedCell_spec (rnd : Nat → Nat) {COLS ROWS : Nat} (hC : 0 < COLS) (hR : 0 < ROWS)
    (st : Nat × Grid) (hrect : Rect st.2 ROWS COLS) (hinv : ColourInv st.2) :
    ∃ st2, seedCell rnd COLS ROWS st = some st2 ∧ Rect st2.2 ROWS COLS ∧
      ColourInv st2.2 := by
  have hY : rnd st.1 % COLS < COLS := Nat.mod_lt _ hC
  have hX : rnd (st.1 + 1) % ROWS < ROWS := Nat.mod_lt _ hR
  obtain ⟨c0, g2, hc0, hmod, hrect2, hcells2⟩ := modifyCell_spec hrect hY hX
    (fun c => { c with state := EState.ALIVE })
  have hgood := hinv _ _ c0 hc0
  have hle : c0.colour ≤ 7 := by
    cases hs : c0.state with
    | ALIVE => exact (hgood.1 hs).2
    | DEAD => rw [hgood.2 hs]; exact Nat.zero_le _
  obtain ⟨i2, g3, hloop, hrect3, hinv3⟩ :=
    colourLoop_spec rnd hY hX 4 0 (st.1 + 2) g2 { c0 with state := EState.ALIVE }
      (by omega) (by omega) hrect2
      (fun row col c2 hne hc2 => by
        rw [hcells2 row col, if_neg hne] at hc2
        exact hinv row col c2 hc2)
      (by rw [hcells2, if_pos ⟨rfl, rfl⟩]) rfl hle (fun h => absurd h (by omega))
  refine ⟨(i2, g3), ?_, hrect3, hinv3⟩
  simp only [seedCell, hmod, hloop]

theorem rect_replicate (W H : Nat) (c : SCell) :
    Rect (List.replicate H (List.replicate W c)) W H := by
  refine ⟨by simp, fun r hr => ?_⟩
  rw [(List.mem_replicate.1 hr).2]
  simp

theorem colourInv_replicate (W H : Nat) :
    ColourInv (List.replicate H (List.replicate W SCell.dead)) := by
  intro row col c hc
  have hrect := rect_replicate W H SCell.dead
  have hin : row < H ∧ col < W := by
    by_contra hout
    rw [(cellAt_eq_none_iff hrect row col).2 hout] at hc
    exact Option.noConfusion hc
  have hval : cellAt (List.replicate H (List.replicate W SCell.dead)) row col =
      some SCell.dead := by
    simp [cellAt, List.getElem?_replicate, hin.1, hin.2]
  rw [hval] at hc
  rw [← Option.some.inj hc]
  exact goodCell_dead

theorem foldlM_seed (rnd : Nat → Nat) {COLS ROWS : Nat} (hC : 0 < COLS) (hR : 0 < ROWS)
    (l : List Nat) :
    ∀ st : Nat × Grid, Rect st.2 ROWS COLS → ColourInv st.2 →
      ∃ st2, l.foldlM (fun st _ => seedCell rnd COLS ROWS st) st = some st2 ∧
        Rect st2.2 ROWS COLS ∧ ColourInv st2.2 := by
  induction l with
  | nil => exact fun st h1 h2 => ⟨st, rfl, h1, h2⟩
  | cons a l ih =>
    intro st h1 h2
    obtain ⟨st1, hs, hr1, hi1⟩ := seedCell_spec rnd hC hR st h1 h2
    obtain ⟨st2, hf, hr2, hi2⟩ := ih st1 hr1 hi1
    refine ⟨st2, ?_, hr2, hi2⟩
    rw [List.foldlM_cons, hs]
    exact hf

/-- The initialisation of `main` returns a `ROWS × COLS` grid that obeys the colour
discipline, whatever values the random source returns. -/
theorem initialTiles_spec (rnd : Nat → Nat) (COLS ROWS : Nat) :
    ∃ st, initialTiles rnd COLS ROWS = some st ∧ Rect st.2 ROWS COLS ∧ ColourInv st.2 := by
  unfold initialTiles
  by_cases h : 0 < COLS ∧ 0 < ROWS
  · exact foldlM_seed rnd h.1 h.2 _ _ (rect_replicate ROWS COLS SCell.dead)
      (colourInv_replicate ROWS COLS)
  · have hz : COLS * ROWS = 0 := by
      rcases Nat.eq_zero_or_pos COLS with h1 | h1
      · rw [h1, Nat.zero_mul]
      · rcases Nat.eq_zero_or_pos ROWS with h2 | h2
        · rw [h2, Nat.mul_zero]
        · exact absurd ⟨h1, h2⟩ h
    rw [hz]
    exact ⟨_, rfl, rect_replicate ROWS COLS SCell.dead, colourInv_replicate ROWS COLS⟩

theorem mem_liveColours {v : Grid} {W H x y t : Nat} (ht : t ∈ liveColours v W H x y) :
    ∃ row col c, cellAt v row col = some c ∧ c.state = EState.ALIVE ∧ c.colour = t := by
  unfold liveColours at ht
  obtain ⟨d, _, hd⟩ := List.mem_filterMap.1 ht
  unfold liveColour at hd
  split_ifs at hd with hin
  cases hc : cellAt v ((y : Int) + d.2).toNat ((x : Int) + d.1).toNat with
  | none => simp [hc] at hd
  | some c =>
    simp only [hc] at hd
    split_ifs at hd with hs
    exact ⟨_, _, c, hc, hs, Option.some.inj hd⟩

theorem goodCell_nextAt {tiles : Grid} {W H : Nat} (hinv : ColourInv tiles) (x y : Nat) :
    GoodCell (nextAt tiles W H x y) := by
  unfold nextAt
  cases hc : cellAt tiles y x with
  | none => exact goodCell_dead
  | some cur =>
    simp only [nextCell]
    split_ifs with h1 h2 h3
    · exact goodCell_dead
    · exact hinv y x cur hc
    · have hlen : (liveColours tiles W H x y).length = 3 := h3
      have hne : liveColours tiles W H x y ≠ [] := by
        intro h
        rw [h] at hlen
        simp at hlen
      obtain ⟨_, hmem, _, _⟩ := majority_spec hne
      obtain ⟨row, col, c, hcell, hs, hcol⟩ := mem_liveColours hmem
      have hg := (hinv row col c hcell).1 hs
      refine ⟨fun _ => ?_, fun hd => by cases hd⟩
      simp only [summary, if_pos hlen]
      rw [← hcol]
      exact hg
    · exact goodCell_dead

theorem step_colourInv {tiles : Grid} {W H : Nat} (ht : Rect tiles W H)
    (hinv : ColourInv tiles) :
    ∃ rep, step H W tiles = some rep ∧ Rect rep W H ∧ ColourInv rep := by
  obtain ⟨rep, hstep, hrect, hcells⟩ := step_spec ht
  refine ⟨rep, hstep, hrect, fun row col c hc => ?_⟩
  have hin : row < H ∧ col < W := by
    by_contra hout
    rw [(cellAt_eq_none_iff hrect row col).2 hout] at hc
    exact Option.noConfusion hc
  rw [hcells col row hin.2 hin.1] at hc
  rw [← Option.some.inj hc]
  exact goodCell_nextAt hinv col row

theorem stepN_colourInv {tiles : Grid} {W H : Nat} (ht : Rect tiles W H)
    (hinv : ColourInv tiles) (n : Nat) :
    ∃ g, stepN H W n tiles = some g ∧ Rect g W H ∧ ColourInv g := by
  induction n with
  | zero => exact ⟨tiles, rfl, ht, hinv⟩
  | succ n ih =>
    obtain ⟨g, hg, hr, hi⟩ := ih
    obtain ⟨rep, hstep, hr2, hi2⟩ := step_colourInv hr hi
    exact ⟨rep, by simp only [stepN, hg, Option.some_bind, hstep], hr2, hi2⟩

/-- C18: whatever values the random source returns, the initial grid built by
`main` and every grid obtained from it by any number of generation steps is a
`ROWS × COLS` grid in which every ALIVE cell has a colour tag from 1 to 7 (a
non-empty OR of the three channels, never 0) and every DEAD cell has colour 0;
hence `print` draws every DEAD cell of such a grid white and every ALIVE cell in
its own colour: the attribute write made for a cell carries that value and is
followed by the cell's character write, and when the dimensions are at most 32768
(those of `main` are 28 and 120) it is the only attribute write addressed to
`(x, y)`. -/
theorem reachable_colours (rnd : Nat → Nat) (COLS ROWS n : Nat) :
    ∃ st g, initialTiles rnd COLS ROWS = some st ∧ Rect st.2 ROWS COLS ∧
      stepN COLS ROWS n st.2 = some g ∧ Rect g ROWS COLS ∧
      (∀ row col c, cellAt g row col = some c →
        (c.state = EState.ALIVE → 1 ≤ c.colour ∧ c.colour ≤ 7) ∧
        (c.state = EState.DEAD → c.colour = 0)) ∧
      ∀ (gen : Int) (x y : Nat) (c : SCell), cellAt g y x = some c →
        ∃ out, print g gen = some out ∧
          [ConsoleWrite.attribute (toShort x) (toShort y)
             (if c.state = EState.DEAD then 7 else c.colour),
           ConsoleWrite.characters (toShort x) (toShort y)
             (if c.state = EState.ALIVE then "x" else ".")] <:+: out ∧
          (COLS ≤ 32768 → ROWS ≤ 32768 →
            attributesAt out x y =
              [ConsoleWrite.attribute x y
                (if c.state = EState.DEAD then 7 else c.colour)]) := by
  obtain ⟨st, hinit, hrect, hinv⟩ := initialTiles_spec rnd COLS ROWS
  obtain ⟨g, hg, hrect2, hinv2⟩ := stepN_colourInv hrect hinv n
  refine ⟨st, g, hinit, hrect, hg, hrect2, hinv2, fun gen x y c hc => ?_⟩
  have hgood := hinv2 y x c hc
  have hattr : (if c.colour = 0 then white else c.colour) =
      (if c.state = EState.DEAD then 7 else c.colour) := by
    cases hs : c.state with
    | ALIVE =>
      have h1 := (hgood.1 hs).1
      have hne : ¬ c.colour = 0 := by omega
      simp [hne]
    | DEAD =>
      have h0 := hgood.2 hs
      simp only [h0, if_true]
      rfl
  obtain ⟨out, hp, hinf⟩ := cellWrites_infix g gen x y c hc
  simp only [cellWrites, hattr] at hinf
  refine ⟨out, hp, hinf, fun hC hR => ?_⟩
  obtain ⟨out2, hp2, ha, _⟩ := print_cell g gen x y c (by rw [hrect2.1]; exact hC)
    (fun r hr => by rw [hrect2.2 r hr]; exact hR) hc
  rw [hp] at hp2
  have he : out2 = out := (Option.some.inj hp2).symm
  subst he
  rw [ha, hattr]

/-! ## Coloured patterns -/

theorem lookup_mem_keys {pat : Pattern} {r : Int × Int} {c : Nat}
    (h : pat.lookup r = some c) : r ∈ pat.map Prod.fst := by
  have hs : (pat.lookup r).isSome = true := by rw [h]; rfl
  obtain ⟨p, hp, hk⟩ := List.lookup_isSome_iff.1 hs
  have hrk : r = p.1 := by simpa using hk
  rw [hrk]
  exact List.mem_map_of_mem _ hp

theorem lookup_outside {pat : Pattern} {r : Int × Int} (h : r ∉ pat.map Prod.fst) :
    pat.lookup r = none := by
  cases hl : pat.lookup r with
  | none => rfl
  | some c => exact absurd (lookup_mem_keys hl) h

theorem patCell_outside {pat : Pattern} {r : Int × Int} (h : r ∉ pat.map Prod.fst) :
    patCell pat r = SCell.dead := by
  simp only [patCell, lookup_outside h]

theorem relColours_outside {pat : Pattern} {r : Int × Int}
    (h : r ∉ candidates (pat.map Prod.fst)) : relColours pat r = [] := by
  unfold relColours
  apply List.filterMap_eq_nil_iff.2
  intro d hd
  apply lookup_outside
  intro hk
  apply h
  unfold candidates
  apply List.mem_append_right
  refine List.mem_flatMap.2 ⟨_, hk, List.mem_map.2 ⟨d, mooreOffsets_perm.mem_iff.2 hd, ?_⟩⟩
  ext <;> simp

theorem relNextCell_outside {pat : Pattern} {r : Int × Int}
    (h : r ∉ candidates (pat.map Prod.fst)) : relNextCell pat r = SCell.dead := by
  have hk : r ∉ pat.map Prod.fst := fun hr => h (List.mem_append_left _ hr)
  unfold relNextCell
  rw [patCell_outside hk, relColours_outside h]
  rfl

theorem relNextCell_all {pat next : Pattern}
    (h1 : ∀ r ∈ candidates (pat.map Prod.fst), relNextCell pat r = patCell next r)
    (h2 : ∀ k ∈ next.map Prod.fst, k ∈ candidates (pat.map Prod.fst)) (r : Int × Int) :
    relNextCell pat r = patCell next r := by
  by_cases hr : r ∈ candidates (pat.map Prod.fst)
  · exact h1 r hr
  · rw [relNextCell_outside hr, patCell_outside (fun hk => hr (h2 r hk))]

theorem liveColour_holds {tiles : Grid} {W H x y : Nat} {pat : Pattern}
    (hfit : Fits (pat.map Prod.fst) W H x y) (hh : Holds pat x y tiles W H) (qx qy : Int) :
    liveColour tiles W H qx qy = pat.lookup (qx - x, qy - y) := by
  unfold liveColour
  by_cases hin : 0 ≤ qx ∧ qx < W ∧ 0 ≤ qy ∧ qy < H
  · rw [if_pos hin, hh qx.toNat (by omega) qy.toNat (by omega)]
    have hx : ((qx.toNat : Nat) : Int) = qx := by omega
    have hy : ((qy.toNat : Nat) : Int) = qy := by omega
    rw [hx, hy]
    unfold patCell
    cases hl : pat.lookup (qx - x, qy - y) with
    | none => rfl
    | some c => rfl
  · rw [if_neg hin]
    symm
    apply lookup_outside
    intro hk
    have := hfit _ hk
    simp only at this
    exact hin (by omega)

theorem liveColours_holds {tiles : Grid} {W H x y : Nat} {pat : Pattern}
    (hfit : Fits (pat.map Prod.fst) W H x y) (hh : Holds pat x y tiles W H) (px py : Nat) :
    liveColours tiles W H px py = relColours pat ((px : Int) - x, (py : Int) - y) := by
  unfold liveColours relColours
  apply List.filterMap_congr
  intro d _
  rw [liveColour_holds hfit hh]
  have e1 : (px : Int) + d.1 - x = (px : Int) - x + d.1 := by omega
  have e2 : (py : Int) + d.2 - y = (py : Int) - y + d.2 := by omega
  rw [e1, e2]

/-- One generation of a coloured pattern lying inside the grid. -/
theorem step_pattern {tiles : Grid} {W H x y : Nat} {pat next : Pattern}
    (ht : Rect tiles W H) (hfit : Fits (pat.map Prod.fst) W H x y)
    (hh : Holds pat x y tiles W H) (hnext : ∀ r, relNextCell pat r = patCell next r) :
    ∃ rep, step H W tiles = some rep ∧ Rect rep W H ∧ Holds next x y rep W H := by
  obtain ⟨rep, hstep, hrect, hcells⟩ := step_spec ht
  refine ⟨rep, hstep, hrect, fun px hpx py hpy => ?_⟩
  rw [hcells px py hpx hpy, ← hnext]
  simp only [nextAt, hh px hpx py hpy, liveColours_holds hfit hh, relNextCell]

theorem Holds.eq {pat : Pattern} {x y W H : Nat} {g1 g2 : Grid} (h1 : Holds pat x y g1 W H)
    (h2 : Holds pat x y g2 W H) (r1 : Rect g1 W H) (r2 : Rect g2 W H) : g1 = g2 :=
  r1.ext r2 (fun px py hpx hpy => by rw [h1 px hpx py hpy, h2 px hpx py hpy])

theorem patH_next (a b c : Nat) (r : Int × Int) :
    relNextCell (patH a b c) r =
      patCell (patV (majority [b, a, c]) b (majority [b, a, c])) r := by
  apply relNextCell_all
  · intro r hr
    have hcand : candidates ((patH a b c).map Prod.fst) = candidates blinkerH := rfl
    rw [hcand] at hr
    fin_cases hr <;> rfl
  · intro k hk
    have hkeys : (patV (majority [b, a, c]) b (majority [b, a, c])).map Prod.fst =
        blinkerV := rfl
    have hcand : candidates ((patH a b c).map Prod.fst) = candidates blinkerH := rfl
    rw [hkeys] at hk
    rw [hcand]
    fin_cases hk <;> decide

theorem patV_next (p b q : Nat) (r : Int × Int) :
    relNextCell (patV p b q) r =
      patCell (patH (majority [q, p, b]) b (majority [q, p, b])) r := by
  apply relNextCell_all
  · intro r hr
    have hcand : candidates ((patV p b q).map Prod.fst) = candidates blinkerV := rfl
    rw [hcand] at hr
    fin_cases hr <;> rfl
  · intro k hk
    have hkeys : (patH (majority [q, p, b]) b (majority [q, p, b])).map Prod.fst =
        blinkerH := rfl
    have hcand : candidates ((patV p b q).map Prod.fst) = candidates blinkerV := rfl
    rw [hkeys] at hk
    rw [hcand]
    fin_cases hk <;> decide

theorem majority_perm {l1 l2 : List Nat} (hp : l1.Perm l2) (hne : l1 ≠ []) :
    majority l1 = majority l2 := by
  have hne2 : l2 ≠ [] := by
    intro h
    rw [h] at hp
    exact hne hp.eq_nil
  obtain ⟨_, _, hmost1, hleast1⟩ := majority_spec hne
  obtain ⟨_, _, hmost2, hleast2⟩ := majority_spec hne2
  have hc : ∀ t, l1.count t = l2.count t := fun t => hp.count_eq t
  have h1 := hmost1 (majority l2)
  have h2 := hmost2 (majority l1)
  rw [← hc, ← hc] at h2
  have he : l1.count (majority l2) = l1.count (majority l1) := by omega
  have h3 := hleast1 (majority l2) he
  have h4 := hleast2 (majority l1) (by rw [← hc, ← hc]; exact he.symm)
  omega

theorem majority_pair (m b : Nat) : majority [m, m, b] = m := by
  obtain ⟨_, hmem, hmost, _⟩ := majority_spec (show [m, m, b] ≠ [] by simp)
  by_contra hk
  have hb : majority [m, m, b] = b := by
    simp only [List.mem_cons, List.mem_nil_iff, or_false] at hmem
    rcases hmem with h | h | h
    · exact absurd h hk
    · exact absurd h hk
    · exact h
  have hbm : ¬ b = m := fun h => hk (hb.trans h)
  have hmb : ¬ m = b := fun h => hbm h.symm
  have h1 := hmost m
  rw [hb] at h1
  simp [List.count_cons, hbm, hmb] at h1

theorem majority_pair_last (m b : Nat) : majority [b, m, m] = m := by
  have hp : [b, m, m].Perm [m, m, b] := by
    have h1 : [b, m, m].Perm [m, b, m] := List.Perm.swap m b [m]
    have h2 : [m, b, m].Perm [m, m, b] := (List.Perm.swap m b []).cons m
    exact h1.trans h2
  rw [majority_perm hp (by simp)]
  exact majority_pair m b

theorem blinkerAt_eq (x y a b c px py : Nat) :
    blinkerAt x y a b c px py = patCell (patH a b c) ((px : Int) - x, (py : Int) - y) := by
  unfold blinkerAt
  by_cases h1 : py = y ∧ px + 1 = x
  · have e : ((px : Int) - x, (py : Int) - y) = (-1, 0) := by
      rw [Prod.mk.injEq]; omega
    rw [if_pos h1, e]
    rfl
  · by_cases h2 : py = y ∧ px = x
    · have e : ((px : Int) - x, (py : Int) - y) = (0, 0) := by
        rw [Prod.mk.injEq]; omega
      rw [if_neg h1, if_pos h2, e]
      rfl
    · by_cases h3 : py = y ∧ px = x + 1
      · have e : ((px : Int) - x, (py : Int) - y) = (1, 0) := by
          rw [Prod.mk.injEq]; omega
        rw [if_neg h1, if_neg h2, if_pos h3, e]
        rfl
      · rw [if_neg h1, if_neg h2, if_neg h3, patCell_outside]
        intro hk
        have hkeys : (patH a b c).map Prod.fst = blinkerH := rfl
        rw [hkeys] at hk
        simp only [blinkerH, List.mem_cons, Prod.mk.injEq, List.mem_nil_iff, or_false] at hk
        omega

theorem patCell_at {g : Grid} {W H x y : Nat} {pat : Pattern} (hh : Holds pat x y g W H)
    {px py : Nat} (hpx : px < W) (hpy : py < H) (r : Int × Int)
    (hr : ((px : Int) - x, (py : Int) - y) = r) : cellAt g py px = some (patCell pat r) := by
  rw [hh px hpx py hpy, hr]

/-- C19: on a grid holding only a horizontal blinker with colours `a`, `b`, `c` at
`(x-1, y)`, `(x, y)`, `(x+1, y)` (all other cells DEAD with no colour, the centre
having all eight neighbour positions in the grid), three generation steps succeed;
the grid after two steps equals the original grid, states and colours included,
exactly when `a = c`; the centre keeps the colour `b` after one and after two
steps; after two steps both end cells carry the majority colour of `a`, `b`, `c`
(the choice `std::max_element` makes over their tally); and the grid after three
steps is the grid after one step. -/
theorem coloured_blinker_period (tiles : Grid) (W H x y a b c : Nat) (ht : Rect tiles W H)
    (hx1 : 1 ≤ x) (hx2 : x + 1 < W) (hy1 : 1 ≤ y) (hy2 : y + 1 < H)
    (hcells : ∀ px, px < W → ∀ py, py < H →
      cellAt tiles py px = some (blinkerAt x y a b c px py)) :
    ∃ g1 g2 g3, step H W tiles = some g1 ∧ step H W g1 = some g2 ∧
      step H W g2 = some g3 ∧ (g2 = tiles ↔ a = c) ∧
      cellAt g1 y x = some ⟨EState.ALIVE, b⟩ ∧ cellAt g2 y x = some ⟨EState.ALIVE, b⟩ ∧
      cellAt g2 y (x - 1) = some ⟨EState.ALIVE, majority [a, b, c]⟩ ∧
      cellAt g2 y (x + 1) = some ⟨EState.ALIVE, majority [a, b, c]⟩ ∧ g3 = g1 := by
  have hh0 : Holds (patH a b c) x y tiles W H := by
    intro px hpx py hpy
    rw [hcells px hpx py hpy, blinkerAt_eq]
  have hfitH : ∀ p q r : Nat, Fits ((patH p q r).map Prod.fst) W H x y :=
    fun _ _ _ => fits_blinkerH hx1 hx2 (by omega)
  have hfitV : ∀ p q r : Nat, Fits ((patV p q r).map Prod.fst) W H x y :=
    fun _ _ _ => fits_blinkerV (by omega) hy1 hy2
  obtain ⟨g1, hs1, hr1, hh1⟩ := step_pattern ht (hfitH a b c) hh0 (patH_next a b c)
  obtain ⟨g2, hs2, hr2, hh2⟩ := step_pattern hr1 (hfitV _ _ _) hh1 (patV_next _ b _)
  rw [majority_pair] at hh2
  obtain ⟨g3, hs3, hr3, hh3⟩ := step_pattern hr2 (hfitH _ _ _) hh2 (patH_next _ b _)
  rw [majority_pair_last] at hh3
  have hm : majority [b, a, c] = majority [a, b, c] :=
    majority_perm (List.Perm.swap a b [c]) (by simp)
  rw [hm] at hh1 hh2 hh3
  have hxm : x - 1 < W := by omega
  have hxc : x < W := by omega
  have hyc : y < H := by omega
  have eL : (((x - 1 : Nat) : Int) - x, (y : Int) - y) = (-1, 0) := by
    rw [Prod.mk.injEq]; omega
  have eC : ((x : Int) - x, (y : Int) - y) = (0, 0) := by
    rw [Prod.mk.injEq]; omega
  have eR : (((x + 1 : Nat) : Int) - x, (y : Int) - y) = (1, 0) := by
    rw [Prod.mk.injEq]; omega
  refine ⟨g1, g2, g3, hs1, hs2, hs3, ?_, patCell_at hh1 hxc hyc _ eC,
    patCell_at hh2 hxc hyc _ eC, patCell_at hh2 hxm hyc _ eL, patCell_at hh2 hx2 hyc _ eR,
    hh3.eq hh1 hr3 hr1⟩
  constructor
  · intro heq
    have hL2 := patCell_at hh2 hxm hyc _ eL
    have hL0 := patCell_at hh0 hxm hyc _ eL
    have hR2 := patCell_at hh2 hx2 hyc _ eR
    have hR0 := patCell_at hh0 hx2 hyc _ eR
    rw [heq, hL0] at hL2
    rw [heq, hR0] at hR2
    have h1 : a = majority [a, b, c] := congrArg SCell.colour (Option.some.inj hL2)
    have h2 : c = majority [a, b, c] := congrArg SCell.colour (Option.some.inj hR2)
    rw [h1, ← h2]
  · intro hac
    subst hac
    have hma : majority [a, b, a] = a := by
      rw [← hm]
      exact majority_pair_last a b
    rw [hma] at hh2
    exact hh2.eq hh0 hr2 ht

theorem coloured_blinker_period_witness :
    Rect blinkerGridSame 3 3 ∧
      (∀ px, px < 3 → ∀ py, py < 3 →
        cellAt blinkerGridSame py px = some (blinkerAt 1 1 6 2 6 px py)) ∧
      ∃ g1 g2 g3, step 3 3 blinkerGridSame = some g1 ∧ step 3 3 g1 = some g2 ∧
        step 3 3 g2 = some g3 ∧ (g2 = blinkerGridSame ↔ 6 = 6) ∧
        cellAt g1 1 1 = some ⟨EState.ALIVE, 2⟩ ∧ cellAt g2 1 1 = some ⟨EState.ALIVE, 2⟩ ∧
        cellAt g2 1 (1 - 1) = some ⟨EState.ALIVE, majority [6, 2, 6]⟩ ∧
        cellAt g2 1 (1 + 1) = some ⟨EState.ALIVE, majority [6, 2, 6]⟩ ∧ g3 = g1 :=
  ⟨by decide, by decide,
    coloured_blinker_period blinkerGridSame 3 3 1 1 6 2 6 (by decide) (by decide)
      (by decide) (by decide) (by decide) (by decide)⟩

end Life
